import Mathlib

/-! Credit card query service.

A shallow embedding of `functions.go` (package `creditcardservice`) and of the
fixture installed by `TestMain` in `functions_test.go`.

* The package-level variables `creditCards` and `transactions` are mutable
  globals (the test suite reassigns them), so every handler takes the current
  `Globals` as an argument.
* A handler writes to an `http.ResponseWriter`; here it returns the `Response`
  it wrote: the status code and the value handed to the JSON encoder (or the
  text handed to `http.Error`).
* `time.Time` is an instant on the time line and `After` compares instants.
* `float64` fields are only stored and encoded, never computed with; they are
  carried as the rational value of their literal.
* `sort.Slice` belongs to the Go standard library, not to this package. It is a
  parameter of `getRecentTransactions`, and `SortSliceContract` records what its
  documentation promises. Where the order among equal dates matters, the
  routine is given as the library implements it (`sort.Slice` below).
-/

namespace CreditCardService

/-! ## Data model -/

/-- Source: `type DeclineReason string`. -/
abbrev DeclineReason := String

def CreditLimitReached : DeclineReason := "You met your credit limit"
def TravelUsage : DeclineReason := "Traveled to a new city where you never used your card before"
def LargePurchaseFlagged : DeclineReason := "Your large purchase was flagged"
def IncorrectPaymentInfo : DeclineReason := "You entered incorrect payment information"
def MissedPayments : DeclineReason := "You have missed payments"
def ExpiredOrDeactivated : DeclineReason := "You're using an expired or deactivated card"
def CardHold : DeclineReason := "Your card has a hold on it"

/-- An instant of `time.Time`, counted in nanoseconds. -/
structure Time where
  nanos : Int
  deriving DecidableEq, Repr

/-- Source: `func (t Time) After(u Time) bool`, true when `t` is later than `u`. -/
def Time.After (t u : Time) : Bool := decide (u.nanos < t.nanos)

structure CreditCard where
  AccountNumber : String
  CreditLimit : Rat
  Balance : Rat
  LastPaymentDate : Time
  Status : String
  DeclineReason : DeclineReason
  deriving DecidableEq, Repr

structure Transaction where
  ID : String
  AccountNumber : String
  Amount : Rat
  Date : Time
  Description : String
  deriving DecidableEq, Repr

/-- The anonymous struct that `getAccountStatus` encodes. -/
structure AccountStatus where
  Status : String
  DeclineReason : DeclineReason
  deriving DecidableEq, Repr

/-- The package-level variables. A Go map is a finite table with distinct keys;
it is kept as an association list and read with `List.lookup`. -/
structure Globals where
  creditCards : List (String × CreditCard)
  transactions : List Transaction

/-! ## The fixed dataset

Every entry calls `time.Now()` afresh and shifts it with `AddDate`, a calendar
computation in the local time zone. Both are inputs of the model: `now k` is
what the `k`-th call of `time.Now()` returned (the twenty calls of package
initialisation, then the thirteen of `TestMain`). -/

structure Clock where
  now : Nat → Time
  addDate : Time → Int → Int → Int → Time

/-- Source: `var creditCards = map[string]CreditCard{...}`. -/
def creditCards (c : Clock) : List (String × CreditCard) := [
  ("1234", { AccountNumber := "1234", CreditLimit := 5000, Balance := 1500,
             LastPaymentDate := c.addDate (c.now 0) 0 0 (-15),
             Status := "active", DeclineReason := "" }),
  ("0987", { AccountNumber := "0987", CreditLimit := 10000, Balance := 10001,
             LastPaymentDate := c.addDate (c.now 1) 0 0 (-5),
             Status := "declined", DeclineReason := CreditLimitReached }),
  ("1111", { AccountNumber := "1111", CreditLimit := 8000, Balance := 7000,
             LastPaymentDate := c.addDate (c.now 2) 0 0 (-20),
             Status := "declined", DeclineReason := TravelUsage }),
  ("4444", { AccountNumber := "4444", CreditLimit := 15000, Balance := 14000,
             LastPaymentDate := c.addDate (c.now 3) 0 0 (-10),
             Status := "declined", DeclineReason := LargePurchaseFlagged }),
  ("7777", { AccountNumber := "7777", CreditLimit := 6000, Balance := 5500,
             LastPaymentDate := c.addDate (c.now 4) 0 0 (-30),
             Status := "declined", DeclineReason := MissedPayments }),
  ("0000", { AccountNumber := "0000", CreditLimit := 7000, Balance := 6000,
             LastPaymentDate := c.addDate (c.now 5) 0 (-1) 0,
             Status := "declined", DeclineReason := ExpiredOrDeactivated })]

/-- One element of a transaction literal: `Date: time.Now().AddDate(0, 0, -days)`
with the `k`-th clock reading. -/
def mkTransaction (c : Clock) (k : Nat) (id acct : String) (amount : Rat) (days : Int)
    (desc : String) : Transaction :=
  { ID := id, AccountNumber := acct, Amount := amount,
    Date := c.addDate (c.now k) 0 0 (-days), Description := desc }

/-- Source: `var transactions = []Transaction{...}`. -/
def transactions (c : Clock) : List Transaction := [
  mkTransaction c 6 "1" "1234" (-100) 1 "Restaurant",
  mkTransaction c 7 "2" "1234" (-50) 2 "Gas Station",
  mkTransaction c 8 "3" "0987" (-500) 1 "Electronics",
  mkTransaction c 9 "4" "4444" (-5000) 1 "Luxury Purchase",
  mkTransaction c 10 "5" "1111" (-150.75) 1 "Hotel - Paris",
  mkTransaction c 11 "6" "1111" (-89.50) 1 "Restaurant - Paris",
  mkTransaction c 12 "7" "1111" (-200.00) 2 "Train Ticket - London to Paris",
  mkTransaction c 13 "8" "1111" (-75.25) 2 "Taxi - London",
  mkTransaction c 14 "9" "1111" (-1500.00) 3 "Flight - New York to London",
  mkTransaction c 15 "10" "1111" (-120.30) 3 "Duty Free Shop - JFK Airport",
  mkTransaction c 16 "11" "1111" (-45.00) 4 "Taxi - New York",
  mkTransaction c 17 "12" "1111" (-85.75) 4 "Restaurant - New York",
  mkTransaction c 18 "13" "1111" (-250.00) 5 "Hotel - New York",
  mkTransaction c 19 "14" "1111" (-60.25) 5 "Souvenir Shop - Times Square"]

/-- The globals as package initialisation leaves them. -/
def initial (c : Clock) : Globals := ⟨creditCards c, transactions c⟩

/-- Source: the `creditCards` that `TestMain` installs. -/
def testCreditCards (c : Clock) : List (String × CreditCard) := [
  ("1234", { AccountNumber := "1234", CreditLimit := 5000, Balance := 1500,
             LastPaymentDate := c.addDate (c.now 20) 0 0 (-15),
             Status := "active", DeclineReason := "" }),
  ("0987654321",
           { AccountNumber := "0987654321", CreditLimit := 10000, Balance := 10001,
             LastPaymentDate := c.addDate (c.now 21) 0 0 (-5),
             Status := "declined", DeclineReason := CreditLimitReached })]

/-- Source: the `transactions` that `TestMain` installs. -/
def testTransactions (c : Clock) : List Transaction := [
  mkTransaction c 22 "1" "1111" (-150.75) 1 "Hotel - Paris",
  mkTransaction c 23 "2" "1111" (-89.50) 1 "Restaurant - Paris",
  mkTransaction c 24 "3" "1111" (-200.00) 2 "Train Ticket - London to Paris",
  mkTransaction c 25 "4" "1111" (-75.25) 2 "Taxi - London",
  mkTransaction c 26 "5" "1111" (-1500.00) 3 "Flight - New York to London",
  mkTransaction c 27 "6" "1111" (-120.30) 3 "Duty Free Shop - JFK Airport",
  mkTransaction c 28 "7" "1111" (-45.00) 4 "Taxi - New York",
  mkTransaction c 29 "8" "1111" (-85.75) 4 "Restaurant - New York",
  mkTransaction c 30 "9" "1111" (-250.00) 5 "Hotel - New York",
  mkTransaction c 31 "10" "1111" (-60.25) 5 "Souvenir Shop - Times Square",
  mkTransaction c 32 "11" "1111" (-100.00) 6 "Extra transaction"]

/-- The globals once `TestMain` has run. -/
def testGlobals (c : Clock) : Globals := ⟨testCreditCards c, testTransactions c⟩

/-- A clock for examples: every reading is the same instant and `AddDate`
shifts by whole days of 86400 seconds (months count as thirty days, years as
365). -/
def fixedClock : Clock where
  now := fun _ => ⟨1700000000000000000⟩
  addDate := fun t y m d => ⟨t.nanos + (365 * y + 30 * m + d) * 86400000000000⟩

/-! ## HTTP responses -/

/-- What a handler handed to the response writer. -/
inductive Payload where
  | text (msg : String)
  | card (c : CreditCard)
  | transactions (ts : List Transaction)
  | status (s : AccountStatus)
  deriving DecidableEq, Repr

structure Response where
  code : Nat
  body : Payload
  deriving DecidableEq, Repr

def StatusOK : Nat := 200
def StatusNotFound : Nat := 404

/-- Source: `http.Error(w, msg, code)`. -/
def httpError (msg : String) (code : Nat) : Response := ⟨code, Payload.text msg⟩

/-- Source: `json.NewEncoder(w).Encode(v)` on a fresh writer, which answers 200. -/
def jsonEncode (v : Payload) : Response := ⟨StatusOK, v⟩

/-- Source: `strings.HasPrefix`. -/
def HasPrefix (s pre : String) : Bool := pre.data.isPrefixOf s.data

/-- Source: `strings.TrimPrefix`, which returns `s` unchanged when it does not
start with `pre`. -/
def TrimPrefix (s pre : String) : String :=
  if HasPrefix s pre then String.mk (s.data.drop pre.data.length) else s

/-! ## The sort routine -/

/-- The type of `sort.Slice` on a slice of transactions: the comparison and the
slice contents before, to the slice contents after. -/
abbrev SortSlice := (Transaction → Transaction → Bool) → List Transaction → List Transaction

/-- The requirement `sort.Slice` puts on `less`: a strict weak ordering. -/
structure StrictWeakOrder (less : Transaction → Transaction → Bool) : Prop where
  irrefl : ∀ a, less a a = false
  trans : ∀ a b c, less a b = true → less b c = true → less a c = true
  incomp_trans : ∀ a b c, less a b = false → less b c = false → less a c = false

/-- What the documentation of `sort.Slice` promises: the slice is rearranged (by
swaps, so it stays a permutation of its contents) and, for a strict weak
ordering, no element is less than one placed before it. About elements that
compare equal it says: "The sort is not guaranteed to be stable: equal elements
may be reversed from their original order." -/
structure SortSliceContract (sortSlice : SortSlice) : Prop where
  perm : ∀ less l, (sortSlice less l).Perm l
  sorted : ∀ less, StrictWeakOrder less → ∀ l,
    (sortSlice less l).Pairwise (fun a b => less b a = false)

/-- Source: the inner loop of the library's `insertionSort_func`, on the already
sorted part held back to front: the new element moves left past every element
it is less than. -/
def insertLeft (less : Transaction → Transaction → Bool) (x : Transaction) :
    List Transaction → List Transaction
  | [] => [x]
  | p :: ps => if less x p then p :: insertLeft less x ps else x :: p :: ps

/-- Insertion sort as the library runs it on short slices: elements are taken
left to right, each moved left while it is less than its neighbour. An instance
of `SortSlice` that keeps equal elements in their order. -/
def insertionSort : SortSlice :=
  fun less l => (l.foldl (fun sortedRev x => insertLeft less x sortedRev) []).reverse

/-! ## Handlers -/

/-- The closure passed to `sort.Slice`: element `i` goes first when its date is
after that of element `j`. -/
def dateAfter (a b : Transaction) : Bool := a.Date.After b.Date

/-- Source: the `for ... range transactions` loop, appending each match. -/
def collect (accountNumber : String) (ts : List Transaction) : List Transaction :=
  ts.foldl (fun recent t => if t.AccountNumber = accountNumber then recent ++ [t] else recent) []

/-- Source: `if len(recentTransactions) > 10 { recentTransactions = recentTransactions[:10] }`. -/
def truncate (recent : List Transaction) : List Transaction :=
  if recent.length > 10 then recent.take 10 else recent

def getBalance (g : Globals) (path : String) : Response :=
  let accountNumber := TrimPrefix path "/balance/"
  match g.creditCards.lookup accountNumber with
  | none => httpError "Account not found" StatusNotFound
  | some card => jsonEncode (Payload.card card)

def getRecentTransactions (sortSlice : SortSlice) (g : Globals) (path : String) : Response :=
  let accountNumber := TrimPrefix path "/transactions/"
  let recentTransactions := collect accountNumber g.transactions
  let recentTransactions := sortSlice dateAfter recentTransactions
  let recentTransactions := truncate recentTransactions
  jsonEncode (Payload.transactions recentTransactions)

def getAccountStatus (g : Globals) (path : String) : Response :=
  let accountNumber := TrimPrefix path "/status/"
  match g.creditCards.lookup accountNumber with
  | none => httpError "Account not found" StatusNotFound
  | some card =>
    let status : AccountStatus := { Status := card.Status, DeclineReason := card.DeclineReason }
    jsonEncode (Payload.status status)

/-! ## Properties of results and sample tables -/

/-- A result keeps the order of the table among equal dates: whenever two
transactions with the same `Date` occur in the result, one before the other,
they occur in the table in that order. -/
def KeepsTableOrder (table result : List Transaction) : Prop :=
  ∀ a b : Transaction, a.Date = b.Date →
    List.Sublist [a, b] result → List.Sublist [a, b] table

/-- A sort routine that leaves the transactions of each date in the order it
found them (a stable sort, for the comparison by date). -/
def StableByDate (sortSlice : SortSlice) : Prop :=
  ∀ (l : List Transaction) (d : Time),
    (sortSlice dateAfter l).filter (fun t => decide (t.Date = d))
      = l.filter (fun t => decide (t.Date = d))

/-- A sample transaction of account "1111", `days` days after instant zero. -/
def sampleTransaction (id : String) (days : Int) : Transaction :=
  { ID := id, AccountNumber := "1111", Amount := -1,
    Date := ⟨days * 86400000000000⟩, Description := "sample" }

/-- A table whose dates are out of order and partly equal. -/
def sampleGlobals : Globals :=
  ⟨[], [sampleTransaction "a" 1, sampleTransaction "b" 3, sampleTransaction "c" 1,
        { sampleTransaction "x" 5 with AccountNumber := "2222" },
        sampleTransaction "d" 2, sampleTransaction "e" 3]⟩

/-! ## The history handler over slices and backing arrays

In Go a slice is a header (array, length, capacity) over a backing array that
other slices may share, `append` writes into that array while capacity lasts,
and `sort.Slice` swaps elements of it in place. Whether the handler leaves the
global `transactions` alone is a question about these arrays, so the handler
is given a second time at that level. -/

/-- The zero value of `Transaction`, which fills unused capacity. -/
def zeroTransaction : Transaction :=
  { ID := "", AccountNumber := "", Amount := 0, Date := ⟨-62135596800000000000⟩,
    Description := "" }

/-- A slice header. `array` is the position of the backing array in the heap,
`none` for a nil slice. Every slice of this program starts at the first cell
of its array. -/
structure Slice where
  array : Option Nat
  len : Nat
  cap : Nat
  deriving DecidableEq, Repr

/-- Source: `var recentTransactions []Transaction`. -/
def nilSlice : Slice := ⟨none, 0, 0⟩

/-- The backing arrays allocated so far. -/
abbrev Heap := List (List Transaction)

/-- The contents of a slice. -/
def Heap.read (h : Heap) (s : Slice) : List Transaction :=
  match s.array with
  | none => []
  | some a => (h.getD a []).take s.len

/-- Source: `s[i]`, for `i` below the length (the only use made of it). -/
def Heap.index (h : Heap) (s : Slice) (i : Nat) : Transaction :=
  match s.array with
  | none => zeroTransaction
  | some a => (h.getD a []).getD i zeroTransaction

/-- The branch of `append` that allocates: a new array of the grown capacity
receives the old contents and the new element. `growCap` is the growth policy
of the runtime, given the old capacity and the length needed. -/
def reallocate (growCap : Nat → Nat → Nat) (h : Heap) (s : Slice) (t : Transaction) :
    Heap × Slice :=
  let newCap := max (s.len + 1) (growCap s.cap (s.len + 1))
  (h ++ [Heap.read h s ++ t :: List.replicate (newCap - (s.len + 1)) zeroTransaction],
    ⟨some h.length, s.len + 1, newCap⟩)

/-- Source: the built-in `append(s, t)`: in place while the capacity lasts,
into a new array otherwise. -/
def append (growCap : Nat → Nat → Nat) (h : Heap) (s : Slice) (t : Transaction) :
    Heap × Slice :=
  match s.array with
  | none => reallocate growCap h s t
  | some a =>
    if s.len < s.cap then
      (h.set a ((h.getD a []).set s.len t), { s with len := s.len + 1 })
    else reallocate growCap h s t

/-- Source: `sort.Slice(s, less)`, which rearranges the cells of `s` in its
backing array and touches nothing else. -/
def sortInPlace (sortSlice : SortSlice) (less : Transaction → Transaction → Bool)
    (h : Heap) (s : Slice) : Heap :=
  match s.array with
  | none => h
  | some a => h.set a (sortSlice less ((h.getD a []).take s.len) ++ (h.getD a []).drop s.len)

/-- The state of the program: the heap and the two package-level variables,
`transactions` now being a slice header. -/
structure Memory where
  heap : Heap
  creditCards : List (String × CreditCard)
  transactions : Slice

/-- The globals as the handlers above see them. -/
def Memory.globals (m : Memory) : Globals := ⟨m.creditCards, Heap.read m.heap m.transactions⟩

/-- A slice header that fits the heap: nil and empty, or over an allocated array
that is at least as long as the capacity, the length within the capacity. -/
def Heap.Valid (h : Heap) (s : Slice) : Prop :=
  match s.array with
  | none => s.len = 0
  | some a => a < h.length ∧ s.len ≤ s.cap ∧ s.cap ≤ (h.getD a []).length

/-- Source: one round of `for _, t := range transactions`: element `i` of the
ranged slice is read and, when its account matches, appended to the slice
built so far. The state is the heap and that slice. -/
def rangeStep (growCap : Nat → Nat → Nat) (accountNumber : String) (src : Slice)
    (st : Heap × Slice) (i : Nat) : Heap × Slice :=
  let t := Heap.index st.1 src i
  if t.AccountNumber = accountNumber then append growCap st.1 st.2 t else st

/-- Source: `getRecentTransactions`, statement by statement, returning the
response and the state it leaves behind. -/
def getRecentTransactionsInMemory (sortSlice : SortSlice) (growCap : Nat → Nat → Nat)
    (m : Memory) (path : String) : Response × Memory :=
  let accountNumber := TrimPrefix path "/transactions/"
  let afterLoop := (List.range m.transactions.len).foldl
    (rangeStep growCap accountNumber m.transactions) (m.heap, nilSlice)
  let heap := sortInPlace sortSlice dateAfter afterLoop.1 afterLoop.2
  let recentTransactions := afterLoop.2
  let recentTransactions :=
    if recentTransactions.len > 10 then { recentTransactions with len := 10 }
    else recentTransactions
  (jsonEncode (Payload.transactions (Heap.read heap recentTransactions)),
    { m with heap := heap })

/-- A memory holding the sample table in one array, next to an unrelated one. -/
def sampleMemory : Memory :=
  ⟨[[zeroTransaction], sampleGlobals.transactions], [], ⟨some 1, 6, 6⟩⟩

/-- A growth policy for examples: double the capacity. -/
def doubleCap (oldCap _needed : Nat) : Nat := 2 * oldCap

/-! ## Routing, the catalog of decline reasons, and clocks -/

set_option linter.dupNamespace false in
/-- Source: `CreditCardService`, the `switch` over the prefixes of the path, the
first matching case taken. -/
def CreditCardService (sortSlice : SortSlice) (g : Globals) (path : String) : Response :=
  if HasPrefix path "/balance/" then getBalance g path
  else if HasPrefix path "/transactions/" then getRecentTransactions sortSlice g path
  else if HasPrefix path "/status/" then getAccountStatus g path
  else httpError "Not found" StatusNotFound

/-- Source: the `const` block, the seven values of `DeclineReason` in the order
they are declared. -/
def declineReasons : List DeclineReason :=
  [CreditLimitReached, TravelUsage, LargePurchaseFlagged, IncorrectPaymentInfo,
   MissedPayments, ExpiredOrDeactivated, CardHold]

/-- A clock keeps days apart over the readings `lo` to `hi` when, for any two of
them, the one shifted back fewer days is a later instant than the one shifted
back more days: the readings lie less than a day apart. -/
def KeepsDays (c : Clock) (lo hi : Nat) : Prop :=
  ∀ i j : Nat, lo ≤ i → i ≤ hi → lo ≤ j → j ≤ hi → ∀ k k' : Int, k < k' →
    (c.addDate (c.now i) 0 0 (-k)).After (c.addDate (c.now j) 0 0 (-k')) = true

/-- A clock for examples that advances by one nanosecond at every reading. -/
def tickingClock : Clock where
  now := fun k => ⟨1700000000000000000 + k⟩
  addDate := fun t y m d => ⟨t.nanos + (365 * y + 30 * m + d) * 86400000000000⟩

/-! ## The library's sort routine

`sort.Slice` as the Go standard library implements it since Go 1.19
(`sort/slice.go` and `sort/zsortfunc.go`): pattern-defeating quicksort over the
index functions `Less` and `Swap`. Slices are lists read and written by
position; every loop takes a bound on its rounds as first argument, chosen so
that the loop ends before the bound does. -/

/-- Source: `data.Less(i, j)`. -/
def lessAt (less : Transaction → Transaction → Bool) (data : List Transaction) (i j : Nat) :
    Bool :=
  less (data.getD i zeroTransaction) (data.getD j zeroTransaction)

/-- Source: `data.Swap(i, j)`. -/
def swapAt (data : List Transaction) (i j : Nat) : List Transaction :=
  (data.set i (data.getD j zeroTransaction)).set j (data.getD i zeroTransaction)

/-- Source: `insertionSort_func(data, a, b)`, which sorts the cells `a` to `b - 1`
by insertion and leaves the others alone. -/
def insertionSort_func (less : Transaction → Transaction → Bool) (data : List Transaction)
    (a b : Nat) : List Transaction :=
  data.take a ++ insertionSort less ((data.drop a).take (b - a)) ++ data.drop b

/-- Source: `siftDown_func(data, lo, hi, first)`, with `root` starting at `lo`. -/
def siftDown_func (less : Transaction → Transaction → Bool) :
    Nat → List Transaction → Nat → Nat → Nat → List Transaction
  | 0, data, _, _, _ => data
  | fuel + 1, data, root, hi, first =>
    let child := 2 * root + 1
    if child ≥ hi then data
    else
      let child :=
        if child + 1 < hi && lessAt less data (first + child) (first + child + 1) then child + 1
        else child
      if !lessAt less data (first + root) (first + child) then data
      else siftDown_func less fuel (swapAt data (first + root) (first + child)) child hi first

/-- Source: `heapSort_func(data, a, b)`. -/
def heapSort_func (less : Transaction → Transaction → Bool) (data : List Transaction)
    (a b : Nat) : List Transaction :=
  let first := a
  let lo := 0
  let hi := b - a
  let data := (List.range ((hi - 1) / 2 + 1)).reverse.foldl
    (fun data i => siftDown_func less (hi + 1) data i hi first) data
  (List.range hi).reverse.foldl
    (fun data i => siftDown_func less (hi + 1) (swapAt data first (first + i)) lo i first) data

/-- Source: the hints of `sortedHint`. -/
inductive SortedHint where
  | unknownHint
  | increasingHint
  | decreasingHint
  deriving DecidableEq, Repr

/-- Source: `order2_func`, the two positions in order and the count of swaps. -/
def order2_func (less : Transaction → Transaction → Bool) (data : List Transaction)
    (a b swaps : Nat) : Nat × Nat × Nat :=
  if lessAt less data b a then (b, a, swaps + 1) else (a, b, swaps)

/-- Source: `median_func`, the position of the median of three and the count of
swaps. -/
def median_func (less : Transaction → Transaction → Bool) (data : List Transaction)
    (a b c swaps : Nat) : Nat × Nat :=
  let r₁ := order2_func less data a b swaps
  let r₂ := order2_func less data r₁.2.1 c r₁.2.2
  let r₃ := order2_func less data r₁.1 r₂.1 r₂.2.2
  (r₃.2.1, r₃.2.2)

/-- Source: `medianAdjacent_func`. -/
def medianAdjacent_func (less : Transaction → Transaction → Bool) (data : List Transaction)
    (a swaps : Nat) : Nat × Nat :=
  median_func less data (a - 1) a (a + 1) swaps

/-- Source: `choosePivot_func(data, a, b)`. -/
def choosePivot_func (less : Transaction → Transaction → Bool) (data : List Transaction)
    (a b : Nat) : Nat × SortedHint :=
  let l := b - a
  let i := a + l / 4 * 1
  let j := a + l / 4 * 2
  let k := a + l / 4 * 3
  let r :=
    if l ≥ 8 then
      if l ≥ 50 then
        let mi := medianAdjacent_func less data i 0
        let mj := medianAdjacent_func less data j mi.2
        let mk := medianAdjacent_func less data k mj.2
        median_func less data mi.1 mj.1 mk.1 mk.2
      else median_func less data i j k 0
    else (j, 0)
  if r.2 = 0 then (r.1, SortedHint.increasingHint)
  else if r.2 = 4 * 3 then (r.1, SortedHint.decreasingHint)
  else (r.1, SortedHint.unknownHint)

/-- Source: `reverseRange_func(data, a, b)`, from positions `i` and `j`. -/
def reverseLoop : Nat → List Transaction → Nat → Nat → List Transaction
  | 0, data, _, _ => data
  | fuel + 1, data, i, j =>
    if i < j then reverseLoop fuel (swapAt data i j) (i + 1) (j - 1) else data

def reverseRange_func (data : List Transaction) (a b : Nat) : List Transaction :=
  reverseLoop (data.length + 1) data a (b - 1)

/-- Source: `(*xorshift).Next` on 64-bit words. -/
def xorshiftNext (r : Nat) : Nat :=
  let r := r ^^^ ((r <<< 13) % 2 ^ 64)
  let r := r ^^^ (r >>> 7)
  r ^^^ ((r <<< 17) % 2 ^ 64)

/-- Source: `bits.Len`, the number of bits needed to write `n`. -/
def bitsLen : Nat → Nat → Nat
  | 0, _ => 0
  | fuel + 1, n => if n = 0 then 0 else bitsLen fuel (n / 2) + 1

/-- Source: `breakPatterns_func(data, a, b)`. -/
def breakPatterns_func (data : List Transaction) (a b : Nat) : List Transaction :=
  let length := b - a
  if length ≥ 8 then
    let modulus := 2 ^ bitsLen length length
    let idx := a + (length / 4) * 2 - 1
    ((List.range 3).foldl
      (fun (st : List Transaction × Nat) i =>
        let random := xorshiftNext st.2
        let other := random &&& (modulus - 1)
        let other := if other ≥ length then other - length else other
        (swapAt st.1 (idx - 1 + i) (a + other), random))
      (data, length)).1
  else data

/-- Source: `for i < b && !data.Less(i, i-1) { i++ }`. -/
def scanSorted (less : Transaction → Transaction → Bool) (data : List Transaction) (b : Nat) :
    Nat → Nat → Nat
  | 0, i => i
  | fuel + 1, i =>
    if i < b && !lessAt less data i (i - 1) then scanSorted less data b fuel (i + 1) else i

/-- Source: `for j := i - 1; j >= 1; j-- { if !data.Less(j, j-1) { break }; data.Swap(j, j-1) }`. -/
def shiftLeft (less : Transaction → Transaction → Bool) :
    Nat → List Transaction → Nat → List Transaction
  | 0, data, _ => data
  | fuel + 1, data, j =>
    if j ≥ 1 then
      if !lessAt less data j (j - 1) then data
      else shiftLeft less fuel (swapAt data j (j - 1)) (j - 1)
    else data

/-- Source: `for j := i + 1; j < b; j++ { if !data.Less(j, j-1) { break }; data.Swap(j, j-1) }`. -/
def shiftRight (less : Transaction → Transaction → Bool) (b : Nat) :
    Nat → List Transaction → Nat → List Transaction
  | 0, data, _ => data
  | fuel + 1, data, j =>
    if j < b then
      if !lessAt less data j (j - 1) then data
      else shiftRight less b fuel (swapAt data j (j - 1)) (j + 1)
    else data

/-- Source: `partialInsertionSort_func(data, a, b)`, the rounds that are left and
the position `i` reached. It returns the slice and whether it is sorted. -/
def partialInsertionLoop (less : Transaction → Transaction → Bool) (a b : Nat) :
    Nat → List Transaction → Nat → List Transaction × Bool
  | 0, data, _ => (data, false)
  | steps + 1, data, i =>
    let i := scanSorted less data b (data.length + 1) i
    if i = b then (data, true)
    else if b - a < 50 then (data, false)
    else
      let data := swapAt data i (i - 1)
      let data := if i - a ≥ 2 then shiftLeft less (data.length + 1) data (i - 1) else data
      let data := if b - i ≥ 2 then shiftRight less b (data.length + 1) data (i + 1) else data
      partialInsertionLoop less a b steps data i

def partialInsertionSort_func (less : Transaction → Transaction → Bool)
    (data : List Transaction) (a b : Nat) : List Transaction × Bool :=
  partialInsertionLoop less a b 5 data (a + 1)

/-- Source: `for i <= j && data.Less(i, a) { i++ }`. -/
def scanLess (less : Transaction → Transaction → Bool) (data : List Transaction) (a j : Nat) :
    Nat → Nat → Nat
  | 0, i => i
  | fuel + 1, i => if i ≤ j && lessAt less data i a then scanLess less data a j fuel (i + 1) else i

/-- Source: `for i <= j && !data.Less(j, a) { j-- }`. -/
def scanNotLess (less : Transaction → Transaction → Bool) (data : List Transaction)
    (a i : Nat) : Nat → Nat → Nat
  | 0, j => j
  | fuel + 1, j =>
    if i ≤ j && !lessAt less data j a then scanNotLess less data a i fuel (j - 1) else j

/-- Source: the closing `for` loop of `partition_func`. -/
def partitionLoop (less : Transaction → Transaction → Bool) (a : Nat) :
    Nat → List Transaction → Nat → Nat → List Transaction × Nat
  | 0, data, _, j => (data, j)
  | fuel + 1, data, i, j =>
    let i := scanLess less data a j (data.length + 1) i
    let j := scanNotLess less data a i (data.length + 1) j
    if i > j then (data, j)
    else partitionLoop less a fuel (swapAt data i j) (i + 1) (j - 1)

/-- Source: `partition_func(data, a, b, pivot)`: the slice, the new position of
the pivot, and whether the slice was partitioned already. -/
def partition_func (less : Transaction → Transaction → Bool) (data : List Transaction)
    (a b pivot : Nat) : List Transaction × Nat × Bool :=
  let data := swapAt data a pivot
  let i := scanLess less data a (b - 1) (data.length + 1) (a + 1)
  let j := scanNotLess less data a i (data.length + 1) (b - 1)
  if i > j then (swapAt data j a, j, true)
  else
    let r := partitionLoop less a (data.length + 1) (swapAt data i j) (i + 1) (j - 1)
    (swapAt r.1 r.2 a, r.2, false)

/-- Source: `for i <= j && !data.Less(a, i) { i++ }`. -/
def scanNotGreater (less : Transaction → Transaction → Bool) (data : List Transaction)
    (a j : Nat) : Nat → Nat → Nat
  | 0, i => i
  | fuel + 1, i =>
    if i ≤ j && !lessAt less data a i then scanNotGreater less data a j fuel (i + 1) else i

/-- Source: `for i <= j && data.Less(a, j) { j-- }`. -/
def scanGreater (less : Transaction → Transaction → Bool) (data : List Transaction)
    (a i : Nat) : Nat → Nat → Nat
  | 0, j => j
  | fuel + 1, j =>
    if i ≤ j && lessAt less data a j then scanGreater less data a i fuel (j - 1) else j

/-- Source: the loop of `partitionEqual_func`. -/
def partitionEqualLoop (less : Transaction → Transaction → Bool) (a : Nat) :
    Nat → List Transaction → Nat → Nat → List Transaction × Nat
  | 0, data, i, _ => (data, i)
  | fuel + 1, data, i, j =>
    let i := scanNotGreater less data a j (data.length + 1) i
    let j := scanGreater less data a i (data.length + 1) j
    if i > j then (data, i)
    else partitionEqualLoop less a fuel (swapAt data i j) (i + 1) (j - 1)

/-- Source: `partitionEqual_func(data, a, b, pivot)`. -/
def partitionEqual_func (less : Transaction → Transaction → Bool) (data : List Transaction)
    (a b pivot : Nat) : List Transaction × Nat :=
  partitionEqualLoop less a (data.length + 1) (swapAt data a pivot) (a + 1) (b - 1)

/-- Source: `pdqsort_func(data, a, b, limit)`. One round of its `for` loop per
unit of the bound; `wasBalanced` and `wasPartitioned` are its two local flags.
Every round and every nested call works on a shorter range, so a bound above
the length of the slice is never used up. -/
def pdqsort_func (less : Transaction → Transaction → Bool) :
    Nat → List Transaction → Nat → Nat → Nat → Bool → Bool → List Transaction
  | 0, data, _, _, _, _, _ => data
  | fuel + 1, data, a, b, limit, wasBalanced, wasPartitioned =>
    let length := b - a
    if length ≤ 12 then insertionSort_func less data a b
    else if limit = 0 then heapSort_func less data a b
    else
      let data₁ := if !wasBalanced then breakPatterns_func data a b else data
      let limit := if !wasBalanced then limit - 1 else limit
      let chosen := choosePivot_func less data₁ a b
      let decreasing := decide (chosen.2 = SortedHint.decreasingHint)
      let data₂ := if decreasing then reverseRange_func data₁ a b else data₁
      let pivot := if decreasing then (b - 1) - (chosen.1 - a) else chosen.1
      let hint := if decreasing then SortedHint.increasingHint else chosen.2
      let probe :=
        if wasBalanced && wasPartitioned && decide (hint = SortedHint.increasingHint) then
          partialInsertionSort_func less data₂ a b
        else (data₂, false)
      if probe.2 then probe.1
      else if a > 0 && !lessAt less probe.1 (a - 1) pivot then
        let eq := partitionEqual_func less probe.1 a b pivot
        pdqsort_func less fuel eq.1 eq.2 b limit wasBalanced wasPartitioned
      else
        let part := partition_func less probe.1 a b pivot
        let mid := part.2.1
        let leftLen := mid - a
        let rightLen := b - mid
        let balanceThreshold := length / 8
        if leftLen < rightLen then
          pdqsort_func less fuel (pdqsort_func less fuel part.1 a mid limit true true)
            (mid + 1) b limit (decide (leftLen ≥ balanceThreshold)) part.2.2
        else
          pdqsort_func less fuel (pdqsort_func less fuel part.1 (mid + 1) b limit true true)
            a mid limit (decide (rightLen ≥ balanceThreshold)) part.2.2

/-- Source: `sort.Slice(x, less)`: `pdqsort_func` over the whole slice, with
`bits.Len` of the length as the limit of bad pivots. -/
def sort.Slice : SortSlice :=
  fun less l => pdqsort_func less (l.length + 1) l 0 l.length (bitsLen l.length l.length) true true

/-- Thirteen transactions of account "1111": twelve of one date in the order
"r00" to "r11", then "r12", one day later. -/
def thirteenGlobals : Globals :=
  ⟨[], [sampleTransaction "r00" 1, sampleTransaction "r01" 1, sampleTransaction "r02" 1,
        sampleTransaction "r03" 1, sampleTransaction "r04" 1, sampleTransaction "r05" 1,
        sampleTransaction "r06" 1, sampleTransaction "r07" 1, sampleTransaction "r08" 1,
        sampleTransaction "r09" 1, sampleTransaction "r10" 1, sampleTransaction "r11" 1,
        sampleTransaction "r12" 2]⟩

/-! ## Helper lemmas -/

theorem TrimPrefix_append (pre id : String) : TrimPrefix (pre ++ id) pre = id := by
  have h : pre.data.isPrefixOf (pre.data ++ id.data) = true := by
    rw [List.isPrefixOf_iff_prefix]; exact List.prefix_append _ _
  simp [TrimPrefix, HasPrefix, String.data_append, h]

theorem collect_foldl (id : String) (ts acc : List Transaction) :
    ts.foldl (fun recent t => if t.AccountNumber = id then recent ++ [t] else recent) acc
      = acc ++ ts.filter (fun t => decide (t.AccountNumber = id)) := by
  induction ts generalizing acc with
  | nil => simp
  | cons t ts ih =>
    simp only [List.foldl_cons, ih]
    by_cases h : t.AccountNumber = id <;> simp [h, List.filter_cons]

theorem collect_eq_filter (id : String) (ts : List Transaction) :
    collect id ts = ts.filter (fun t => decide (t.AccountNumber = id)) := by
  simp [collect, collect_foldl]

theorem truncate_eq_take (l : List Transaction) : truncate l = l.take 10 := by
  unfold truncate
  split
  · rfl
  · rw [List.take_of_length_le (by omega)]

theorem getRecentTransactions_eq (sortSlice : SortSlice) (g : Globals) (path : String) :
    getRecentTransactions sortSlice g path
      = ⟨StatusOK, Payload.transactions ((sortSlice dateAfter (g.transactions.filter
          (fun t => decide (t.AccountNumber = TrimPrefix path "/transactions/")))).take 10)⟩ := by
  simp [getRecentTransactions, jsonEncode, collect_eq_filter, truncate_eq_take]

theorem dateAfter_strictWeakOrder : StrictWeakOrder dateAfter := by
  constructor
  · intro a; simp [dateAfter, Time.After]
  · intro a b c; simp only [dateAfter, Time.After, decide_eq_true_eq]; omega
  · intro a b c; simp only [dateAfter, Time.After, decide_eq_false_iff_not]; omega

theorem insertLeft_perm (less : Transaction → Transaction → Bool) (x : Transaction)
    (l : List Transaction) : (insertLeft less x l).Perm (x :: l) := by
  induction l with
  | nil => simp [insertLeft]
  | cons p ps ih =>
    unfold insertLeft
    split
    · exact (List.Perm.cons p ih).trans (List.Perm.swap x p ps)
    · exact List.Perm.refl _

theorem foldl_insertLeft_perm (less : Transaction → Transaction → Bool)
    (l acc : List Transaction) :
    (l.foldl (fun sortedRev x => insertLeft less x sortedRev) acc).Perm (acc ++ l) := by
  induction l generalizing acc with
  | nil => simp
  | cons x xs ih =>
    simp only [List.foldl_cons]
    refine (ih _).trans ?_
    refine (List.Perm.append_right xs (insertLeft_perm less x acc)).trans ?_
    simpa using (@List.perm_middle _ x acc xs).symm

theorem insertLeft_sorted (less : Transaction → Transaction → Bool) (hless : StrictWeakOrder less)
    (x : Transaction) (l : List Transaction)
    (hl : l.Pairwise (fun a b => less a b = false)) :
    (insertLeft less x l).Pairwise (fun a b => less a b = false) := by
  induction l with
  | nil => simp [insertLeft]
  | cons p ps ih =>
    rw [List.pairwise_cons] at hl
    unfold insertLeft
    split
    next hxp =>
      rw [List.pairwise_cons]
      refine ⟨?_, ih hl.2⟩
      intro y hy
      have hy := (insertLeft_perm less x ps).mem_iff.mp hy
      rw [List.mem_cons] at hy
      rcases hy with rfl | hy
      · cases hpx : less p y with
        | false => rfl
        | true => have := hless.trans _ _ _ hxp hpx; simp [hless.irrefl] at this
      · exact hl.1 y hy
    next hxp =>
      have hxp : less x p = false := by simpa using hxp
      rw [List.pairwise_cons]
      refine ⟨?_, List.pairwise_cons.mpr hl⟩
      intro y hy
      rcases List.mem_cons.mp hy with rfl | hy
      · exact hxp
      · exact hless.incomp_trans _ _ _ hxp (hl.1 y hy)

theorem foldl_insertLeft_sorted (less : Transaction → Transaction → Bool)
    (hless : StrictWeakOrder less) (l acc : List Transaction)
    (hacc : acc.Pairwise (fun a b => less a b = false)) :
    (l.foldl (fun sortedRev x => insertLeft less x sortedRev) acc).Pairwise
      (fun a b => less a b = false) := by
  induction l generalizing acc with
  | nil => simpa using hacc
  | cons x xs ih =>
    simp only [List.foldl_cons]
    exact ih _ (insertLeft_sorted less hless x acc hacc)

theorem insertionSort_contract : SortSliceContract insertionSort := by
  constructor
  · intro less l
    unfold insertionSort
    exact (List.reverse_perm _).trans (by simpa using foldl_insertLeft_perm less l [])
  · intro less hless l
    unfold insertionSort
    rw [List.pairwise_reverse]
    exact foldl_insertLeft_sorted less hless l [] List.Pairwise.nil

/-! ## Claims -/

/-- C1: for every account identifier and every transaction table,
`getRecentTransactions` answers 200 with a list whose length is the smaller of
10 and the number of transactions in the table whose `AccountNumber` equals
the identifier. -/
theorem getRecentTransactions_length (sortSlice : SortSlice)
    (hsort : SortSliceContract sortSlice) (g : Globals) (path id : String)
    (hid : TrimPrefix path "/transactions/" = id) :
    ∃ ts, getRecentTransactions sortSlice g path = ⟨StatusOK, Payload.transactions ts⟩ ∧
      ts.length = min 10 (g.transactions.countP (fun t => decide (t.AccountNumber = id))) := by
  refine ⟨_, getRecentTransactions_eq sortSlice g path, ?_⟩
  rw [List.length_take, (hsort.perm _ _).length_eq, hid, List.countP_eq_length_filter]

theorem getRecentTransactions_length_witness :
    SortSliceContract insertionSort ∧
    TrimPrefix "/transactions/1111" "/transactions/" = "1111" ∧
    (testGlobals fixedClock).transactions.countP (fun t => decide (t.AccountNumber = "1111")) = 11 ∧
    ∃ ts, getRecentTransactions insertionSort (testGlobals fixedClock) "/transactions/1111"
        = ⟨StatusOK, Payload.transactions ts⟩ ∧
      ts.length = min 10 ((testGlobals fixedClock).transactions.countP
        (fun t => decide (t.AccountNumber = "1111"))) :=
  ⟨insertionSort_contract, by decide, by decide,
    getRecentTransactions_length insertionSort insertionSort_contract
      (testGlobals fixedClock) "/transactions/1111" "1111" (by decide)⟩

/-- C2: for every account identifier and every transaction table, the list
`getRecentTransactions` returns is ordered by `Date` non-increasing: in every
adjacent pair the second transaction is not dated after the first. -/
theorem getRecentTransactions_sorted (sortSlice : SortSlice)
    (hsort : SortSliceContract sortSlice) (g : Globals) (path : String) :
    ∃ ts, getRecentTransactions sortSlice g path = ⟨StatusOK, Payload.transactions ts⟩ ∧
      ∀ (i : Nat) (hi : i + 1 < ts.length),
        (ts.get ⟨i + 1, hi⟩).Date.After (ts.get ⟨i, by omega⟩).Date = false := by
  refine ⟨_, getRecentTransactions_eq sortSlice g path, ?_⟩
  intro i hi
  have hpw := (hsort.sorted dateAfter dateAfter_strictWeakOrder
    (g.transactions.filter
      (fun t => decide (t.AccountNumber = TrimPrefix path "/transactions/")))).sublist
    (List.take_sublist 10 _)
  exact List.pairwise_iff_get.mp hpw ⟨i, by omega⟩ ⟨i + 1, hi⟩ (by simp)

theorem getRecentTransactions_sorted_witness :
    SortSliceContract insertionSort ∧
    getRecentTransactions insertionSort sampleGlobals "/transactions/1111"
      = ⟨StatusOK, Payload.transactions
          [sampleTransaction "b" 3, sampleTransaction "e" 3, sampleTransaction "d" 2,
           sampleTransaction "a" 1, sampleTransaction "c" 1]⟩ ∧
    ∃ ts, getRecentTransactions insertionSort sampleGlobals "/transactions/1111"
        = ⟨StatusOK, Payload.transactions ts⟩ ∧
      ∀ (i : Nat) (hi : i + 1 < ts.length),
        (ts.get ⟨i + 1, hi⟩).Date.After (ts.get ⟨i, by omega⟩).Date = false :=
  ⟨insertionSort_contract, by decide,
    getRecentTransactions_sorted insertionSort insertionSort_contract
      sampleGlobals "/transactions/1111"⟩

theorem insertLeft_filter_date (x : Transaction) (d : Time) (l : List Transaction) :
    (insertLeft dateAfter x l).filter (fun t => decide (t.Date = d))
      = (x :: l).filter (fun t => decide (t.Date = d)) := by
  induction l with
  | nil => simp [insertLeft]
  | cons p ps ih =>
    unfold insertLeft
    split
    next hxp =>
      have hne : ¬ (x.Date = d ∧ p.Date = d) := by
        rintro ⟨hx, hp⟩
        simp [dateAfter, Time.After, hx, hp] at hxp
      rw [List.filter_cons, ih]
      by_cases hx : x.Date = d
      · have hp : ¬ p.Date = d := fun hp => hne ⟨hx, hp⟩
        simp [List.filter_cons, hx, hp]
      · simp [List.filter_cons, hx]
    next => rfl

theorem foldl_insertLeft_filter_date (d : Time) (l acc : List Transaction) :
    (l.foldl (fun sortedRev x => insertLeft dateAfter x sortedRev) acc).filter
        (fun t => decide (t.Date = d))
      = (l.filter (fun t => decide (t.Date = d))).reverse
          ++ acc.filter (fun t => decide (t.Date = d)) := by
  induction l generalizing acc with
  | nil => simp
  | cons x xs ih =>
    simp only [List.foldl_cons]
    rw [ih, insertLeft_filter_date]
    by_cases hx : x.Date = d <;> simp [List.filter_cons, hx]

theorem insertionSort_stableByDate : StableByDate insertionSort := by
  intro l d
  unfold insertionSort
  rw [List.filter_reverse, foldl_insertLeft_filter_date]
  simp

theorem filter_take_prefix (p : Transaction → Bool) (n : Nat) (l : List Transaction) :
    List.IsPrefix ((l.take n).filter p) (l.filter p) := by
  refine ⟨(l.drop n).filter p, ?_⟩
  rw [← List.filter_append, List.take_append_drop]

/-- A stable sort routine makes the handler stable: for every date, the returned
transactions of that date are, in order, the first ones among the matching
transactions of that date in the table. -/
theorem stable_of_stableByDate (sortSlice : SortSlice)
    (hstable : StableByDate sortSlice) (g : Globals) (path id : String)
    (hid : TrimPrefix path "/transactions/" = id) :
    ∃ ts, getRecentTransactions sortSlice g path = ⟨StatusOK, Payload.transactions ts⟩ ∧
      (∀ d : Time, List.IsPrefix (ts.filter (fun t => decide (t.Date = d)))
        ((g.transactions.filter (fun t => decide (t.AccountNumber = id))).filter
          (fun t => decide (t.Date = d)))) ∧
      KeepsTableOrder g.transactions ts := by
  refine ⟨_, getRecentTransactions_eq sortSlice g path, ?_⟩
  rw [hid]
  have hpre : ∀ d : Time, List.IsPrefix
      (((sortSlice dateAfter (g.transactions.filter
          (fun t => decide (t.AccountNumber = id)))).take 10).filter
        (fun t => decide (t.Date = d)))
      ((g.transactions.filter (fun t => decide (t.AccountNumber = id))).filter
        (fun t => decide (t.Date = d))) := by
    intro d
    have h := filter_take_prefix (fun t => decide (t.Date = d)) 10
      (sortSlice dateAfter (g.transactions.filter (fun t => decide (t.AccountNumber = id))))
    rwa [hstable] at h
  refine ⟨hpre, ?_⟩
  intro a b hab hsub
  have h1 := hsub.filter (fun t => decide (t.Date = b.Date))
  have h2 : [a, b].filter (fun t => decide (t.Date = b.Date)) = [a, b] := by
    simp [List.filter_cons, hab]
  rw [h2] at h1
  exact ((h1.trans (hpre b.Date).sublist).trans (List.filter_sublist _)).trans
    (List.filter_sublist _)

theorem lookup_eq_none_of_not_mem (l : List (String × CreditCard)) (k : String)
    (h : k ∉ l.map Prod.fst) : l.lookup k = none := by
  induction l with
  | nil => rfl
  | cons kv l ih =>
    obtain ⟨k1, v1⟩ := kv
    simp only [List.map_cons, List.mem_cons, not_or] at h
    have hne : (k == k1) = false := by simpa using h.1
    simp only [List.lookup, hne]
    exact ih h.2

theorem lookup_some_of_mem (l : List (String × CreditCard)) (k : String)
    (h : k ∈ l.map Prod.fst) : ∃ v, l.lookup k = some v ∧ (k, v) ∈ l := by
  induction l with
  | nil => simp at h
  | cons kv l ih =>
    obtain ⟨k1, v1⟩ := kv
    by_cases hk : k = k1
    · subst hk
      exact ⟨v1, by simp [List.lookup], by simp⟩
    · have hne : (k == k1) = false := by simpa using hk
      simp only [List.map_cons, List.mem_cons, hk, false_or] at h
      obtain ⟨v, hv, hmem⟩ := ih h
      exact ⟨v, by simp only [List.lookup, hne]; exact hv, List.mem_cons_of_mem _ hmem⟩

/-- C4: for every account identifier that is not a key of the account table,
`getBalance` and `getAccountStatus` both answer 404 "Account not found" and
carry no account data; for every identifier that is a key, neither answers
404. -/
theorem notFound_iff_unknown (g : Globals) (id pathB pathS : String)
    (hB : TrimPrefix pathB "/balance/" = id) (hS : TrimPrefix pathS "/status/" = id) :
    (id ∉ g.creditCards.map Prod.fst →
      getBalance g pathB = ⟨StatusNotFound, Payload.text "Account not found"⟩ ∧
      getAccountStatus g pathS = ⟨StatusNotFound, Payload.text "Account not found"⟩) ∧
    (id ∈ g.creditCards.map Prod.fst →
      (getBalance g pathB).code ≠ StatusNotFound ∧
      (getAccountStatus g pathS).code ≠ StatusNotFound) := by
  constructor
  · intro h
    have hnone := lookup_eq_none_of_not_mem g.creditCards id h
    simp [getBalance, getAccountStatus, hB, hS, hnone, httpError]
  · intro h
    obtain ⟨v, hv, -⟩ := lookup_some_of_mem g.creditCards id h
    simp [getBalance, getAccountStatus, hB, hS, hv, jsonEncode, StatusOK, StatusNotFound]

theorem notFound_iff_unknown_witness :
    TrimPrefix "/balance/9999999999" "/balance/" = "9999999999" ∧
    TrimPrefix "/status/9999999999" "/status/" = "9999999999" ∧
    ("9999999999" ∉ (initial fixedClock).creditCards.map Prod.fst →
      getBalance (initial fixedClock) "/balance/9999999999"
        = ⟨StatusNotFound, Payload.text "Account not found"⟩ ∧
      getAccountStatus (initial fixedClock) "/status/9999999999"
        = ⟨StatusNotFound, Payload.text "Account not found"⟩) ∧
    ("9999999999" ∈ (initial fixedClock).creditCards.map Prod.fst →
      (getBalance (initial fixedClock) "/balance/9999999999").code ≠ StatusNotFound ∧
      (getAccountStatus (initial fixedClock) "/status/9999999999").code ≠ StatusNotFound) :=
  ⟨by decide, by decide,
    notFound_iff_unknown (initial fixedClock) "9999999999"
      "/balance/9999999999" "/status/9999999999" (by decide) (by decide)⟩

theorem creditCards_key_eq_accountNumber (c : Clock) :
    ∀ kv ∈ creditCards c, kv.2.AccountNumber = kv.1 := by
  intro kv hkv
  simp only [creditCards, List.mem_cons, List.mem_singleton, List.not_mem_nil, or_false] at hkv
  rcases hkv with rfl | rfl | rfl | rfl | rfl | rfl <;> rfl

/-- C5: over the fixed dataset, for every known account identifier `getBalance`
answers 200 with the record stored under that identifier, and the record's
`AccountNumber` is the identifier; every key of the map is the `AccountNumber`
of its value. -/
theorem getBalance_known (c : Clock) (path id : String)
    (hid : TrimPrefix path "/balance/" = id)
    (hknown : id ∈ (creditCards c).map Prod.fst) :
    (∃ card, getBalance (initial c) path = ⟨StatusOK, Payload.card card⟩ ∧
      (id, card) ∈ creditCards c ∧ card.AccountNumber = id) ∧
    ∀ kv ∈ creditCards c, kv.2.AccountNumber = kv.1 := by
  refine ⟨?_, creditCards_key_eq_accountNumber c⟩
  obtain ⟨v, hv, hmem⟩ := lookup_some_of_mem (creditCards c) id hknown
  refine ⟨v, ?_, hmem, creditCards_key_eq_accountNumber c _ hmem⟩
  simp [getBalance, initial, hid, hv, jsonEncode]

theorem getBalance_known_witness :
    TrimPrefix "/balance/1234" "/balance/" = "1234" ∧
    "1234" ∈ (creditCards fixedClock).map Prod.fst ∧
    (∃ card, getBalance (initial fixedClock) "/balance/1234" = ⟨StatusOK, Payload.card card⟩ ∧
      ("1234", card) ∈ creditCards fixedClock ∧ card.AccountNumber = "1234") ∧
    ∀ kv ∈ creditCards fixedClock, kv.2.AccountNumber = kv.1 :=
  ⟨by decide, by decide,
    getBalance_known fixedClock "/balance/1234" "1234" (by decide) (by decide)⟩

/-- C6: `getRecentTransactions` never answers 404. For every identifier, known
to the account table or not, it answers 200 with a list of transactions, and
when no transaction of the table carries the identifier the list is empty. -/
theorem getRecentTransactions_never_notFound (sortSlice : SortSlice)
    (hsort : SortSliceContract sortSlice) (g : Globals) (path id : String)
    (hid : TrimPrefix path "/transactions/" = id) :
    (∃ ts, getRecentTransactions sortSlice g path = ⟨StatusOK, Payload.transactions ts⟩) ∧
    (getRecentTransactions sortSlice g path).code ≠ StatusNotFound ∧
    ((∀ t ∈ g.transactions, t.AccountNumber ≠ id) →
      getRecentTransactions sortSlice g path = ⟨StatusOK, Payload.transactions []⟩) := by
  refine ⟨⟨_, getRecentTransactions_eq sortSlice g path⟩, ?_, ?_⟩
  · rw [getRecentTransactions_eq]
    simp [StatusOK, StatusNotFound]
  · intro hnone
    rw [getRecentTransactions_eq, hid]
    have hfilter : g.transactions.filter (fun t => decide (t.AccountNumber = id)) = [] := by
      rw [List.filter_eq_nil_iff]
      intro t ht
      simpa using hnone t ht
    rw [hfilter, List.perm_nil.mp (hsort.perm dateAfter [])]
    rfl

theorem getRecentTransactions_never_notFound_witness :
    SortSliceContract insertionSort ∧
    TrimPrefix "/transactions/9999999999" "/transactions/" = "9999999999" ∧
    "9999999999" ∉ (initial fixedClock).creditCards.map Prod.fst ∧
    (∃ ts, getRecentTransactions insertionSort (initial fixedClock) "/transactions/9999999999"
      = ⟨StatusOK, Payload.transactions ts⟩) ∧
    (getRecentTransactions insertionSort (initial fixedClock) "/transactions/9999999999").code
      ≠ StatusNotFound ∧
    ((∀ t ∈ (initial fixedClock).transactions, t.AccountNumber ≠ "9999999999") →
      getRecentTransactions insertionSort (initial fixedClock) "/transactions/9999999999"
        = ⟨StatusOK, Payload.transactions []⟩) :=
  ⟨insertionSort_contract, by decide, by decide,
    getRecentTransactions_never_notFound insertionSort insertionSort_contract
      (initial fixedClock) "/transactions/9999999999" "9999999999" (by decide)⟩

theorem testTransactions_all_1111 (c : Clock) :
    (testTransactions c).filter (fun t => decide (t.AccountNumber = "1111"))
      = testTransactions c := by
  rw [List.filter_eq_self]
  intro t ht
  simp only [testTransactions, List.mem_cons, List.mem_singleton, List.not_mem_nil,
    or_false] at ht
  rcases ht with rfl | rfl | rfl | rfl | rfl | rfl | rfl | rfl | rfl | rfl | rfl <;> rfl

/-- C7: `getRecentTransactions` does not look at the account table. Two states
with the same transaction table give the same response whatever their account
tables hold; so in the state `TestMain` installs, where account "1111" is not in
the account table and `getBalance` answers 404 for it, ten of its transactions
are returned all the same. -/
theorem getRecentTransactions_ignores_accounts (sortSlice : SortSlice)
    (hsort : SortSliceContract sortSlice) (c : Clock) :
    (∀ (g₁ g₂ : Globals) (path : String), g₁.transactions = g₂.transactions →
      getRecentTransactions sortSlice g₁ path = getRecentTransactions sortSlice g₂ path) ∧
    "1111" ∉ (testGlobals c).creditCards.map Prod.fst ∧
    getBalance (testGlobals c) "/balance/1111"
      = ⟨StatusNotFound, Payload.text "Account not found"⟩ ∧
    ∃ ts, getRecentTransactions sortSlice (testGlobals c) "/transactions/1111"
        = ⟨StatusOK, Payload.transactions ts⟩ ∧
      ts.length = 10 ∧
      ∀ t ∈ ts, t ∈ (testGlobals c).transactions ∧ t.AccountNumber = "1111" := by
  refine ⟨?_, ?_, ?_, _, getRecentTransactions_eq sortSlice (testGlobals c) _, ?_, ?_⟩
  · intro g₁ g₂ path h
    simp only [getRecentTransactions, h]
  · simp [testGlobals, testCreditCards]
  · have h : TrimPrefix "/balance/1111" "/balance/" = "1111" := by decide
    simp [getBalance, h, testGlobals, testCreditCards, List.lookup, httpError]
  · have h : TrimPrefix "/transactions/1111" "/transactions/" = "1111" := by decide
    rw [List.length_take, (hsort.perm _ _).length_eq, h]
    simp only [testGlobals, testTransactions_all_1111]
    rfl
  · have h : TrimPrefix "/transactions/1111" "/transactions/" = "1111" := by decide
    intro t ht
    have hmem := (hsort.perm _ _).mem_iff.mp (List.mem_of_mem_take ht)
    rw [h, List.mem_filter] at hmem
    exact ⟨hmem.1, by simpa using hmem.2⟩

theorem getRecentTransactions_ignores_accounts_witness :
    SortSliceContract insertionSort ∧
    (∀ (g₁ g₂ : Globals) (path : String), g₁.transactions = g₂.transactions →
      getRecentTransactions insertionSort g₁ path = getRecentTransactions insertionSort g₂ path) ∧
    "1111" ∉ (testGlobals fixedClock).creditCards.map Prod.fst ∧
    getBalance (testGlobals fixedClock) "/balance/1111"
      = ⟨StatusNotFound, Payload.text "Account not found"⟩ ∧
    ∃ ts, getRecentTransactions insertionSort (testGlobals fixedClock) "/transactions/1111"
        = ⟨StatusOK, Payload.transactions ts⟩ ∧
      ts.length = 10 ∧
      ∀ t ∈ ts, t ∈ (testGlobals fixedClock).transactions ∧ t.AccountNumber = "1111" :=
  ⟨insertionSort_contract,
    getRecentTransactions_ignores_accounts insertionSort insertionSort_contract fixedClock⟩

theorem creditCards_declineReason_iff (c : Clock) :
    ∀ kv ∈ creditCards c, (kv.2.DeclineReason ≠ "" ↔ kv.2.Status = "declined") := by
  intro kv hkv
  simp only [creditCards, List.mem_cons, List.mem_singleton, List.not_mem_nil, or_false] at hkv
  rcases hkv with rfl | rfl | rfl | rfl | rfl | rfl <;>
    simp [CreditLimitReached, TravelUsage, LargePurchaseFlagged, MissedPayments,
      ExpiredOrDeactivated]

/-- C8: over the fixed dataset, whenever `getAccountStatus` answers with a
status view, its `DeclineReason` is non-empty exactly when its `Status` is
"declined"; every account of the dataset has `DeclineReason` set exactly when
its `Status` is "declined". -/
theorem getAccountStatus_declineReason_iff (c : Clock) (path : String) (s : AccountStatus)
    (h : getAccountStatus (initial c) path = ⟨StatusOK, Payload.status s⟩) :
    (s.DeclineReason ≠ "" ↔ s.Status = "declined") ∧
    ∀ kv ∈ creditCards c, (kv.2.DeclineReason ≠ "" ↔ kv.2.Status = "declined") := by
  refine ⟨?_, creditCards_declineReason_iff c⟩
  unfold getAccountStatus at h
  cases hlook : (initial c).creditCards.lookup (TrimPrefix path "/status/") with
  | none => simp [hlook, httpError, StatusOK, StatusNotFound] at h
  | some card =>
    simp only [hlook, jsonEncode, Response.mk.injEq, Payload.status.injEq, true_and] at h
    subst h
    have hkey : TrimPrefix path "/status/" ∈ (creditCards c).map Prod.fst := by
      by_contra hnot
      have := lookup_eq_none_of_not_mem (creditCards c) _ hnot
      simp [initial] at hlook
      simp [this] at hlook
    obtain ⟨v, hv, hmem⟩ := lookup_some_of_mem (creditCards c) _ hkey
    have hvc : v = card := by
      simp only [initial] at hlook
      rw [hv] at hlook
      exact Option.some.inj hlook
    subst hvc
    exact creditCards_declineReason_iff c _ hmem

theorem getAccountStatus_declineReason_iff_witness :
    getAccountStatus (initial fixedClock) "/status/1234"
      = ⟨StatusOK, Payload.status ⟨"active", ""⟩⟩ ∧
    ((("" : String) ≠ "" ↔ "active" = "declined") ∧
      ∀ kv ∈ creditCards fixedClock, (kv.2.DeclineReason ≠ "" ↔ kv.2.Status = "declined")) :=
  ⟨by decide,
    getAccountStatus_declineReason_iff fixedClock "/status/1234" ⟨"active", ""⟩ (by decide)⟩

/-- C9: for every known account identifier, `getAccountStatus` answers with the
two-field view whose `Status` and `DeclineReason` are those of the account that
`getBalance` returns for the same identifier. -/
theorem getAccountStatus_projects_balance (g : Globals) (id pathB pathS : String)
    (hB : TrimPrefix pathB "/balance/" = id) (hS : TrimPrefix pathS "/status/" = id)
    (hknown : id ∈ g.creditCards.map Prod.fst) :
    ∃ card, getBalance g pathB = ⟨StatusOK, Payload.card card⟩ ∧
      getAccountStatus g pathS
        = ⟨StatusOK, Payload.status ⟨card.Status, card.DeclineReason⟩⟩ := by
  obtain ⟨v, hv, -⟩ := lookup_some_of_mem g.creditCards id hknown
  exact ⟨v, by simp [getBalance, hB, hv, jsonEncode],
    by simp [getAccountStatus, hS, hv, jsonEncode]⟩

theorem getAccountStatus_projects_balance_witness :
    TrimPrefix "/balance/0987654321" "/balance/" = "0987654321" ∧
    TrimPrefix "/status/0987654321" "/status/" = "0987654321" ∧
    "0987654321" ∈ (testGlobals fixedClock).creditCards.map Prod.fst ∧
    getAccountStatus (testGlobals fixedClock) "/status/0987654321"
      = ⟨StatusOK, Payload.status ⟨"declined", CreditLimitReached⟩⟩ ∧
    ∃ card, getBalance (testGlobals fixedClock) "/balance/0987654321"
        = ⟨StatusOK, Payload.card card⟩ ∧
      getAccountStatus (testGlobals fixedClock) "/status/0987654321"
        = ⟨StatusOK, Payload.status ⟨card.Status, card.DeclineReason⟩⟩ :=
  ⟨by decide, by decide, by decide, by decide,
    getAccountStatus_projects_balance (testGlobals fixedClock) "0987654321"
      "/balance/0987654321" "/status/0987654321" (by decide) (by decide) (by decide)⟩

/-! ## The handler over slices: what it leaves untouched -/

theorem append_fresh (growCap : Nat → Nat → Nat) (h₀ h : Heap) (s : Slice) (t : Transaction)
    (hpre : List.IsPrefix h₀ h) (hfresh : ∀ a, s.array = some a → h₀.length ≤ a) :
    List.IsPrefix h₀ (append growCap h s t).1 ∧
    ∀ a, (append growCap h s t).2.array = some a → h₀.length ≤ a := by
  have hre : List.IsPrefix h₀ (reallocate growCap h s t).1 ∧
      ∀ a, (reallocate growCap h s t).2.array = some a → h₀.length ≤ a := by
    refine ⟨hpre.trans (List.prefix_append _ _), ?_⟩
    intro a ha
    simp only [reallocate, Option.some.injEq] at ha
    have := hpre.length_le
    omega
  unfold append
  cases hs : s.array with
  | none => exact hre
  | some a =>
    simp only
    split
    · refine ⟨?_, fun b hb => hfresh b (by simpa [hs] using hb)⟩
      obtain ⟨e, rfl⟩ := hpre
      rw [List.set_append_right _ _ (hfresh a hs)]
      exact List.prefix_append _ _
    · exact hre

theorem rangeStep_fresh (growCap : Nat → Nat → Nat) (accountNumber : String) (src : Slice)
    (h₀ : Heap) (st : Heap × Slice) (i : Nat)
    (hpre : List.IsPrefix h₀ st.1) (hfresh : ∀ a, st.2.array = some a → h₀.length ≤ a) :
    List.IsPrefix h₀ (rangeStep growCap accountNumber src st i).1 ∧
    ∀ a, (rangeStep growCap accountNumber src st i).2.array = some a → h₀.length ≤ a := by
  unfold rangeStep
  simp only
  split
  · exact append_fresh growCap h₀ st.1 st.2 _ hpre hfresh
  · exact ⟨hpre, hfresh⟩

theorem loop_fresh (growCap : Nat → Nat → Nat) (accountNumber : String) (src : Slice)
    (h₀ : Heap) (is : List Nat) (st : Heap × Slice)
    (hpre : List.IsPrefix h₀ st.1) (hfresh : ∀ a, st.2.array = some a → h₀.length ≤ a) :
    List.IsPrefix h₀ (is.foldl (rangeStep growCap accountNumber src) st).1 ∧
    ∀ a, (is.foldl (rangeStep growCap accountNumber src) st).2.array = some a →
      h₀.length ≤ a := by
  induction is generalizing st with
  | nil => exact ⟨hpre, hfresh⟩
  | cons i is ih =>
    simp only [List.foldl_cons]
    have hstep := rangeStep_fresh growCap accountNumber src h₀ st i hpre hfresh
    exact ih _ hstep.1 hstep.2

theorem sortInPlace_fresh (sortSlice : SortSlice) (less : Transaction → Transaction → Bool)
    (h₀ h : Heap) (s : Slice)
    (hpre : List.IsPrefix h₀ h) (hfresh : ∀ a, s.array = some a → h₀.length ≤ a) :
    List.IsPrefix h₀ (sortInPlace sortSlice less h s) := by
  unfold sortInPlace
  cases hs : s.array with
  | none => exact hpre
  | some a =>
    simp only
    obtain ⟨e, rfl⟩ := hpre
    rw [List.set_append_right _ _ (hfresh a hs)]
    exact List.prefix_append _ _

theorem read_of_prefix (h₀ h : Heap) (s : Slice) (hpre : List.IsPrefix h₀ h)
    (hs : ∀ a, s.array = some a → a < h₀.length) :
    Heap.read h s = Heap.read h₀ s := by
  unfold Heap.read
  cases ha : s.array with
  | none => rfl
  | some a =>
    obtain ⟨e, rfl⟩ := hpre
    simp only
    rw [List.getD_append _ _ _ _ (hs a ha)]

theorem getRecentTransactionsInMemory_heap_prefix (sortSlice : SortSlice)
    (growCap : Nat → Nat → Nat) (m : Memory) (path : String) :
    List.IsPrefix m.heap (getRecentTransactionsInMemory sortSlice growCap m path).2.heap := by
  have hloop := loop_fresh growCap (TrimPrefix path "/transactions/") m.transactions m.heap
    (List.range m.transactions.len) (m.heap, nilSlice) (List.prefix_refl _)
    (by intro a ha; simp [nilSlice] at ha)
  exact sortInPlace_fresh sortSlice dateAfter m.heap _ _ hloop.1 hloop.2

/-! ## The handler over slices: it answers as the handler over lists -/

theorem take_succ_set (l : List Transaction) (n : Nat) (t : Transaction) (h : n < l.length) :
    (l.set n t).take (n + 1) = l.take n ++ [t] := by
  induction l generalizing n with
  | nil => simp at h
  | cons x xs ih =>
    cases n with
    | zero => simp
    | succ n =>
      simp only [List.length_cons, Nat.add_lt_add_iff_right] at h
      simp only [List.set_cons_succ, List.take_succ_cons, List.cons_append, ih n h]

theorem take_succ_getD (l : List Transaction) (n : Nat) (d : Transaction) (h : n < l.length) :
    l.take (n + 1) = l.take n ++ [l.getD n d] := by
  induction l generalizing n with
  | nil => simp at h
  | cons x xs ih =>
    cases n with
    | zero => simp
    | succ n =>
      simp only [List.length_cons, Nat.add_lt_add_iff_right] at h
      rw [List.take_succ_cons, List.take_succ_cons, ih n h]
      simp

theorem getD_set_self (h : Heap) (a : Nat) (x : List Transaction) (ha : a < h.length) :
    (h.set a x).getD a [] = x := by
  simp [List.getD_eq_getElem?_getD, List.getElem?_set, ha]

theorem read_length (h : Heap) (s : Slice) (hv : Heap.Valid h s) :
    (Heap.read h s).length = s.len := by
  unfold Heap.Valid at hv
  unfold Heap.read
  cases ha : s.array with
  | none => simp [ha] at hv ⊢; omega
  | some a =>
    simp only [ha] at hv ⊢
    rw [List.length_take]
    omega

theorem reallocate_read (growCap : Nat → Nat → Nat) (h : Heap) (s : Slice) (t : Transaction)
    (hv : Heap.Valid h s) :
    Heap.Valid (reallocate growCap h s t).1 (reallocate growCap h s t).2 ∧
    Heap.read (reallocate growCap h s t).1 (reallocate growCap h s t).2
      = Heap.read h s ++ [t] := by
  have hlen := read_length h s hv
  have hget : ∀ x : List Transaction, (h ++ [x]).getD h.length [] = x := by
    intro x
    rw [List.getD_append_right _ _ _ _ (Nat.le_refl _)]
    simp
  constructor
  · simp only [Heap.Valid, reallocate, hget]
    refine ⟨by simp, by omega, ?_⟩
    simp only [List.length_append, List.length_cons, List.length_replicate, hlen]
    omega
  · simp only [Heap.read, reallocate, hget]
    have : Heap.read h s ++ t :: List.replicate
          (max (s.len + 1) (growCap s.cap (s.len + 1)) - (s.len + 1)) zeroTransaction
        = (Heap.read h s ++ [t]) ++ List.replicate
          (max (s.len + 1) (growCap s.cap (s.len + 1)) - (s.len + 1)) zeroTransaction := by
      simp
    simp only [Heap.read] at this
    rw [this]
    apply List.take_left'
    simp only [List.length_append, List.length_singleton]
    have := hlen
    simp only [Heap.read] at this
    omega

theorem append_read (growCap : Nat → Nat → Nat) (h : Heap) (s : Slice) (t : Transaction)
    (hv : Heap.Valid h s) :
    Heap.Valid (append growCap h s t).1 (append growCap h s t).2 ∧
    Heap.read (append growCap h s t).1 (append growCap h s t).2 = Heap.read h s ++ [t] := by
  have hre := reallocate_read growCap h s t hv
  unfold append
  cases hs : s.array with
  | none => exact hre
  | some a =>
    simp only
    split
    next hlt =>
      have hv2 := hv
      simp only [Heap.Valid, hs] at hv2
      obtain ⟨ha, -, hcap⟩ := hv2
      constructor
      · simp only [Heap.Valid, hs, List.length_set, getD_set_self h a _ ha]
        exact ⟨ha, by omega, hcap⟩
      · simp only [Heap.read, hs, getD_set_self h a _ ha]
        exact take_succ_set _ _ _ (by omega)
    next => exact hre

theorem take_succ_index (h₀ h : Heap) (src : Slice) (n : Nat)
    (hv : Heap.Valid h₀ src) (hpre : List.IsPrefix h₀ h) (hn : n < src.len) :
    (Heap.read h₀ src).take (n + 1) = (Heap.read h₀ src).take n ++ [Heap.index h src n] := by
  unfold Heap.Valid at hv
  unfold Heap.read Heap.index
  cases ha : src.array with
  | none => simp only [ha] at hv; omega
  | some a =>
    simp only [ha] at hv ⊢
    obtain ⟨e, rfl⟩ := hpre
    rw [List.getD_append _ _ _ _ hv.1, List.take_take, List.take_take,
      Nat.min_eq_left (by omega), Nat.min_eq_left (by omega)]
    exact take_succ_getD _ _ _ (by omega)

theorem loop_read (growCap : Nat → Nat → Nat) (id : String) (m : Memory)
    (hv : Heap.Valid m.heap m.transactions) (n : Nat) (hn : n ≤ m.transactions.len) :
    Heap.Valid ((List.range n).foldl (rangeStep growCap id m.transactions) (m.heap, nilSlice)).1
      ((List.range n).foldl (rangeStep growCap id m.transactions) (m.heap, nilSlice)).2 ∧
    Heap.read ((List.range n).foldl (rangeStep growCap id m.transactions) (m.heap, nilSlice)).1
      ((List.range n).foldl (rangeStep growCap id m.transactions) (m.heap, nilSlice)).2
      = ((Heap.read m.heap m.transactions).take n).filter
          (fun t => decide (t.AccountNumber = id)) := by
  induction n with
  | zero => simp [Heap.Valid, Heap.read, nilSlice]
  | succ n ih =>
    obtain ⟨ihv, ihr⟩ := ih (by omega)
    have hpre := (loop_fresh growCap id m.transactions m.heap (List.range n) (m.heap, nilSlice)
      (List.prefix_refl _) (by intro a ha; simp [nilSlice] at ha)).1
    rw [List.range_succ, List.foldl_append, List.foldl_cons, List.foldl_nil,
      take_succ_index m.heap _ m.transactions n hv hpre (by omega), List.filter_append, ← ihr]
    generalize (List.range n).foldl (rangeStep growCap id m.transactions) (m.heap, nilSlice)
      = st at ihv ⊢
    unfold rangeStep
    simp only
    split
    next hmatch =>
      have happ := append_read growCap st.1 st.2 (Heap.index st.1 m.transactions n) ihv
      refine ⟨happ.1, ?_⟩
      rw [happ.2]
      simp [List.filter_cons, hmatch]
    next hmatch =>
      refine ⟨ihv, ?_⟩
      simp [List.filter_cons, hmatch]

theorem sortInPlace_read (sortSlice : SortSlice) (hsort : SortSliceContract sortSlice)
    (less : Transaction → Transaction → Bool) (h : Heap) (s : Slice) (hv : Heap.Valid h s)
    (k : Nat) (hk : k ≤ s.len) :
    Heap.read (sortInPlace sortSlice less h s) { s with len := k }
      = (sortSlice less (Heap.read h s)).take k := by
  unfold Heap.Valid at hv
  unfold Heap.read sortInPlace
  cases ha : s.array with
  | none =>
    simp only [ha] at hv ⊢
    have : k = 0 := by omega
    simp [this]
  | some a =>
    simp only [ha] at hv ⊢
    rw [getD_set_self h a _ hv.1]
    apply List.take_append_of_le_length
    rw [(hsort.perm _ _).length_eq, List.length_take]
    omega

theorem getRecentTransactionsInMemory_response (sortSlice : SortSlice)
    (hsort : SortSliceContract sortSlice) (growCap : Nat → Nat → Nat) (m : Memory)
    (path : String) (hv : Heap.Valid m.heap m.transactions) :
    (getRecentTransactionsInMemory sortSlice growCap m path).1
      = getRecentTransactions sortSlice m.globals path := by
  obtain ⟨hlv, hlr⟩ := loop_read growCap (TrimPrefix path "/transactions/") m hv
    m.transactions.len (Nat.le_refl _)
  rw [List.take_of_length_le (by rw [read_length m.heap m.transactions hv])] at hlr
  rw [getRecentTransactions_eq]
  unfold getRecentTransactionsInMemory
  simp only [Memory.globals, jsonEncode]
  generalize (List.range m.transactions.len).foldl
    (rangeStep growCap (TrimPrefix path "/transactions/") m.transactions) (m.heap, nilSlice)
    = st at hlv hlr ⊢
  have hlen := read_length st.1 st.2 hlv
  split
  next hgt =>
    rw [sortInPlace_read sortSlice hsort dateAfter st.1 st.2 hlv 10 (by omega), hlr]
  next hle =>
    have h := sortInPlace_read sortSlice hsort dateAfter st.1 st.2 hlv st.2.len (Nat.le_refl _)
    have hs : ({ st.2 with len := st.2.len } : Slice) = st.2 := rfl
    rw [hs] at h
    rw [h, hlr, List.take_of_length_le, List.take_of_length_le]
    · rw [(hsort.perm _ _).length_eq, ← hlr]; omega
    · rw [(hsort.perm _ _).length_eq, ← hlr]; omega

/-- C10: `getRecentTransactions` does not mutate the repository. Run over slices
and their backing arrays, from any state in which the global `transactions` is a
well-formed slice, it leaves the two global variables as they were, leaves every
array that existed before the call as it was (the arrays it writes are ones it
allocated itself), so the global transaction sequence reads element for element
as before; and it answers as the handler over lists does. -/
theorem getRecentTransactions_preserves_repository (sortSlice : SortSlice)
    (hsort : SortSliceContract sortSlice) (growCap : Nat → Nat → Nat) (m : Memory)
    (path : String) (hv : Heap.Valid m.heap m.transactions) :
    (getRecentTransactionsInMemory sortSlice growCap m path).2.transactions = m.transactions ∧
    (getRecentTransactionsInMemory sortSlice growCap m path).2.creditCards = m.creditCards ∧
    List.IsPrefix m.heap (getRecentTransactionsInMemory sortSlice growCap m path).2.heap ∧
    Heap.read (getRecentTransactionsInMemory sortSlice growCap m path).2.heap
        (getRecentTransactionsInMemory sortSlice growCap m path).2.transactions
      = Heap.read m.heap m.transactions ∧
    (getRecentTransactionsInMemory sortSlice growCap m path).1
      = getRecentTransactions sortSlice m.globals path := by
  have hpre := getRecentTransactionsInMemory_heap_prefix sortSlice growCap m path
  refine ⟨rfl, rfl, hpre, ?_, getRecentTransactionsInMemory_response sortSlice hsort growCap m
    path hv⟩
  apply read_of_prefix m.heap _ _ hpre
  intro a ha
  have hv2 := hv
  simp only [Heap.Valid] at hv2
  have ha2 : m.transactions.array = some a := ha
  simp only [ha2] at hv2
  exact hv2.1

theorem getRecentTransactions_preserves_repository_witness :
    SortSliceContract insertionSort ∧
    Heap.Valid sampleMemory.heap sampleMemory.transactions ∧
    (getRecentTransactionsInMemory insertionSort doubleCap sampleMemory
        "/transactions/1111").1
      = ⟨StatusOK, Payload.transactions
          [sampleTransaction "b" 3, sampleTransaction "e" 3, sampleTransaction "d" 2,
           sampleTransaction "a" 1, sampleTransaction "c" 1]⟩ ∧
    (getRecentTransactionsInMemory insertionSort doubleCap sampleMemory
        "/transactions/1111").2.transactions = sampleMemory.transactions ∧
    (getRecentTransactionsInMemory insertionSort doubleCap sampleMemory
        "/transactions/1111").2.creditCards = sampleMemory.creditCards ∧
    List.IsPrefix sampleMemory.heap (getRecentTransactionsInMemory insertionSort doubleCap
        sampleMemory "/transactions/1111").2.heap ∧
    Heap.read (getRecentTransactionsInMemory insertionSort doubleCap sampleMemory
          "/transactions/1111").2.heap
        (getRecentTransactionsInMemory insertionSort doubleCap sampleMemory
          "/transactions/1111").2.transactions
      = Heap.read sampleMemory.heap sampleMemory.transactions ∧
    (getRecentTransactionsInMemory insertionSort doubleCap sampleMemory
        "/transactions/1111").1
      = getRecentTransactions insertionSort sampleMemory.globals "/transactions/1111" :=
  ⟨insertionSort_contract, by simp [Heap.Valid, sampleMemory, sampleGlobals], by decide,
    getRecentTransactions_preserves_repository insertionSort insertionSort_contract doubleCap
      sampleMemory "/transactions/1111" (by simp [Heap.Valid, sampleMemory, sampleGlobals])⟩

/-! ## Calling the history handler twice -/

theorem valid_of_prefix (h₀ h : Heap) (s : Slice) (hpre : List.IsPrefix h₀ h)
    (hv : Heap.Valid h₀ s) : Heap.Valid h s := by
  unfold Heap.Valid at hv ⊢
  cases ha : s.array with
  | none => simpa [ha] using hv
  | some a =>
    simp only [ha] at hv ⊢
    obtain ⟨e, rfl⟩ := hpre
    rw [List.getD_append _ _ _ _ hv.1]
    exact ⟨by rw [List.length_append]; omega, hv.2.1, hv.2.2⟩

theorem globals_after_call (sortSlice : SortSlice) (growCap : Nat → Nat → Nat) (m : Memory)
    (path : String) (hv : Heap.Valid m.heap m.transactions) :
    (getRecentTransactionsInMemory sortSlice growCap m path).2.globals = m.globals := by
  have hpre := getRecentTransactionsInMemory_heap_prefix sortSlice growCap m path
  have hread : Heap.read (getRecentTransactionsInMemory sortSlice growCap m path).2.heap
      m.transactions = Heap.read m.heap m.transactions := by
    apply read_of_prefix m.heap _ _ hpre
    intro a ha
    have hv2 := hv
    simp only [Heap.Valid, ha] at hv2
    exact hv2.1
  show Globals.mk m.creditCards
      (Heap.read (getRecentTransactionsInMemory sortSlice growCap m path).2.heap m.transactions)
    = Globals.mk m.creditCards (Heap.read m.heap m.transactions)
  rw [hread]

/-- C11: `getRecentTransactions` is deterministic. Called a second time with the
same path on the state the first call left behind, whatever capacities the
runtime chose for `append` in either call, it gives the identical response: the
same transactions in the same order. The same holds for a call on any other
state whose transaction table has the same contents. -/
theorem getRecentTransactions_deterministic (sortSlice : SortSlice)
    (hsort : SortSliceContract sortSlice) (growCap₁ growCap₂ : Nat → Nat → Nat) (m : Memory)
    (path : String) (hv : Heap.Valid m.heap m.transactions) :
    (getRecentTransactionsInMemory sortSlice growCap₂
        (getRecentTransactionsInMemory sortSlice growCap₁ m path).2 path).1
      = (getRecentTransactionsInMemory sortSlice growCap₁ m path).1 ∧
    ∀ m₂ : Memory, Heap.Valid m₂.heap m₂.transactions →
      Heap.read m₂.heap m₂.transactions = Heap.read m.heap m.transactions →
      (getRecentTransactionsInMemory sortSlice growCap₂ m₂ path).1
        = (getRecentTransactionsInMemory sortSlice growCap₁ m path).1 := by
  have hpre := getRecentTransactionsInMemory_heap_prefix sortSlice growCap₁ m path
  have hv1 : Heap.Valid (getRecentTransactionsInMemory sortSlice growCap₁ m path).2.heap
      (getRecentTransactionsInMemory sortSlice growCap₁ m path).2.transactions :=
    valid_of_prefix m.heap _ m.transactions hpre hv
  constructor
  · rw [getRecentTransactionsInMemory_response sortSlice hsort growCap₂ _ path hv1,
      getRecentTransactionsInMemory_response sortSlice hsort growCap₁ m path hv,
      globals_after_call sortSlice growCap₁ m path hv]
  · intro m₂ hv2 hsame
    rw [getRecentTransactionsInMemory_response sortSlice hsort growCap₂ m₂ path hv2,
      getRecentTransactionsInMemory_response sortSlice hsort growCap₁ m path hv]
    simp only [getRecentTransactions, Memory.globals, hsame]

theorem getRecentTransactions_deterministic_witness :
    SortSliceContract insertionSort ∧
    Heap.Valid sampleMemory.heap sampleMemory.transactions ∧
    (getRecentTransactionsInMemory insertionSort doubleCap sampleMemory
        "/transactions/1111").1
      = ⟨StatusOK, Payload.transactions
          [sampleTransaction "b" 3, sampleTransaction "e" 3, sampleTransaction "d" 2,
           sampleTransaction "a" 1, sampleTransaction "c" 1]⟩ ∧
    ((getRecentTransactionsInMemory insertionSort (fun _ needed => needed)
        (getRecentTransactionsInMemory insertionSort doubleCap sampleMemory
          "/transactions/1111").2 "/transactions/1111").1
      = (getRecentTransactionsInMemory insertionSort doubleCap sampleMemory
          "/transactions/1111").1 ∧
    ∀ m₂ : Memory, Heap.Valid m₂.heap m₂.transactions →
      Heap.read m₂.heap m₂.transactions = Heap.read sampleMemory.heap sampleMemory.transactions →
      (getRecentTransactionsInMemory insertionSort (fun _ needed => needed) m₂
          "/transactions/1111").1
        = (getRecentTransactionsInMemory insertionSort doubleCap sampleMemory
          "/transactions/1111").1) :=
  ⟨insertionSort_contract, by simp [Heap.Valid, sampleMemory, sampleGlobals], by decide,
    getRecentTransactions_deterministic insertionSort insertionSort_contract doubleCap
      (fun _ needed => needed) sampleMemory "/transactions/1111"
      (by simp [Heap.Valid, sampleMemory, sampleGlobals])⟩

/-! ## The catalog and the scenario of account 0987 -/

/-- C13: the catalog of decline reasons holds exactly seven strings, pairwise
distinct and none empty, and in the fixed dataset every account whose
`DeclineReason` is non-empty carries one of those seven. -/
theorem declineReasons_catalog (c : Clock) :
    declineReasons.length = 7 ∧ declineReasons.Nodup ∧
    (∀ r ∈ declineReasons, r ≠ "") ∧
    ∀ kv ∈ creditCards c, kv.2.DeclineReason ≠ "" → kv.2.DeclineReason ∈ declineReasons := by
  refine ⟨by decide, by decide, by decide, ?_⟩
  intro kv hkv
  simp only [creditCards, List.mem_cons, List.mem_singleton, List.not_mem_nil, or_false] at hkv
  rcases hkv with rfl | rfl | rfl | rfl | rfl | rfl <;> simp [declineReasons]

/-- C14: in the fixed dataset the lookup of account "0987" succeeds with balance
10001 over a credit limit of 10000, status "declined" and the decline reason
"You met your credit limit", which is `CreditLimitReached`; `getAccountStatus`
answers with that status and that reason. -/
theorem account_0987_over_limit (c : Clock) :
    (∃ card, getBalance (initial c) "/balance/0987" = ⟨StatusOK, Payload.card card⟩ ∧
      card.AccountNumber = "0987" ∧ card.Balance = 10001 ∧ card.CreditLimit = 10000 ∧
      card.CreditLimit < card.Balance ∧ card.Status = "declined" ∧
      card.DeclineReason = "You met your credit limit" ∧
      card.DeclineReason = CreditLimitReached ∧
      getAccountStatus (initial c) "/status/0987"
        = ⟨StatusOK, Payload.status ⟨card.Status, card.DeclineReason⟩⟩) ∧
    getAccountStatus (initial c) "/status/0987"
      = ⟨StatusOK, Payload.status ⟨"declined", "You met your credit limit"⟩⟩ := by
  have hB : TrimPrefix "/balance/0987" "/balance/" = "0987" := by decide
  have hS : TrimPrefix "/status/0987" "/status/" = "0987" := by decide
  have hlook : (creditCards c).lookup "0987" = some
      { AccountNumber := "0987", CreditLimit := 10000, Balance := 10001,
        LastPaymentDate := c.addDate (c.now 1) 0 0 (-5),
        Status := "declined", DeclineReason := CreditLimitReached } := by
    simp [creditCards, List.lookup]
  have hbal : getBalance (initial c) "/balance/0987" = ⟨StatusOK, Payload.card
      { AccountNumber := "0987", CreditLimit := 10000, Balance := 10001,
        LastPaymentDate := c.addDate (c.now 1) 0 0 (-5),
        Status := "declined", DeclineReason := CreditLimitReached }⟩ := by
    simp only [getBalance, initial, hB, hlook, jsonEncode]
  have hstat : getAccountStatus (initial c) "/status/0987"
      = ⟨StatusOK, Payload.status ⟨"declined", CreditLimitReached⟩⟩ := by
    simp only [getAccountStatus, initial, hS, hlook, jsonEncode]
  exact ⟨⟨_, hbal, rfl, rfl, rfl, by norm_num, rfl, rfl, rfl, hstat⟩, hstat⟩

/-! ## Routing -/

theorem hasPrefix_iff (path pre : String) :
    HasPrefix path pre = true ↔ ∃ id : String, path = pre ++ id := by
  unfold HasPrefix
  rw [List.isPrefixOf_iff_prefix]
  constructor
  · rintro ⟨t, ht⟩
    refine ⟨String.mk t, ?_⟩
    apply String.ext
    rw [String.data_append, ht]
  · rintro ⟨id, rfl⟩
    rw [String.data_append]
    exact List.prefix_append _ _

theorem balance_not_transactions (path : String) (h : HasPrefix path "/balance/" = true) :
    HasPrefix path "/transactions/" = false := by
  cases h2 : HasPrefix path "/transactions/" with
  | false => rfl
  | true =>
    obtain ⟨a, ha⟩ := (hasPrefix_iff _ _).mp h
    obtain ⟨b, hb⟩ := (hasPrefix_iff _ _).mp h2
    have hdata := congrArg String.data (ha.symm.trans hb)
    rw [String.data_append, String.data_append] at hdata
    have h1 : "/balance/".data = ['/', 'b', 'a', 'l', 'a', 'n', 'c', 'e', '/'] := rfl
    have h3 : "/transactions/".data
        = ['/', 't', 'r', 'a', 'n', 's', 'a', 'c', 't', 'i', 'o', 'n', 's', '/'] := rfl
    rw [h1, h3] at hdata
    simp at hdata

theorem balance_not_status (path : String) (h : HasPrefix path "/balance/" = true) :
    HasPrefix path "/status/" = false := by
  cases h2 : HasPrefix path "/status/" with
  | false => rfl
  | true =>
    obtain ⟨a, ha⟩ := (hasPrefix_iff _ _).mp h
    obtain ⟨b, hb⟩ := (hasPrefix_iff _ _).mp h2
    have hdata := congrArg String.data (ha.symm.trans hb)
    rw [String.data_append, String.data_append] at hdata
    have h1 : "/balance/".data = ['/', 'b', 'a', 'l', 'a', 'n', 'c', 'e', '/'] := rfl
    have h3 : "/status/".data = ['/', 's', 't', 'a', 't', 'u', 's', '/'] := rfl
    rw [h1, h3] at hdata
    simp at hdata

theorem transactions_not_status (path : String) (h : HasPrefix path "/transactions/" = true) :
    HasPrefix path "/status/" = false := by
  cases h2 : HasPrefix path "/status/" with
  | false => rfl
  | true =>
    obtain ⟨a, ha⟩ := (hasPrefix_iff _ _).mp h
    obtain ⟨b, hb⟩ := (hasPrefix_iff _ _).mp h2
    have hdata := congrArg String.data (ha.symm.trans hb)
    rw [String.data_append, String.data_append] at hdata
    have h1 : "/transactions/".data
        = ['/', 't', 'r', 'a', 'n', 's', 'a', 'c', 't', 'i', 'o', 'n', 's', '/'] := rfl
    have h3 : "/status/".data = ['/', 's', 't', 'a', 't', 'u', 's', '/'] := rfl
    rw [h1, h3] at hdata
    simp at hdata

/-- C17: `CreditCardService` routes by prefix of the path. A path that starts
with "/balance/", "/transactions/" or "/status/" goes to `getBalance`,
`getRecentTransactions` or `getAccountStatus`, and the identifier that handler
looks up is exactly what follows the prefix, character for character; a path
that starts with none of the three is answered 404 "Not found" whatever the
tables hold. -/
theorem CreditCardService_routes (sortSlice : SortSlice) (g : Globals) (path : String) :
    (∀ id : String, path = "/balance/" ++ id →
      CreditCardService sortSlice g path = getBalance g path ∧
      TrimPrefix path "/balance/" = id ∧
      (g.creditCards.lookup id = none → CreditCardService sortSlice g path
        = ⟨StatusNotFound, Payload.text "Account not found"⟩) ∧
      (∀ card, g.creditCards.lookup id = some card → CreditCardService sortSlice g path
        = ⟨StatusOK, Payload.card card⟩)) ∧
    (∀ id : String, path = "/transactions/" ++ id →
      CreditCardService sortSlice g path = getRecentTransactions sortSlice g path ∧
      TrimPrefix path "/transactions/" = id ∧
      CreditCardService sortSlice g path = ⟨StatusOK, Payload.transactions
        ((sortSlice dateAfter (g.transactions.filter
          (fun t => decide (t.AccountNumber = id)))).take 10)⟩) ∧
    (∀ id : String, path = "/status/" ++ id →
      CreditCardService sortSlice g path = getAccountStatus g path ∧
      TrimPrefix path "/status/" = id ∧
      (g.creditCards.lookup id = none → CreditCardService sortSlice g path
        = ⟨StatusNotFound, Payload.text "Account not found"⟩) ∧
      (∀ card, g.creditCards.lookup id = some card → CreditCardService sortSlice g path
        = ⟨StatusOK, Payload.status ⟨card.Status, card.DeclineReason⟩⟩)) ∧
    (HasPrefix path "/balance/" = false → HasPrefix path "/transactions/" = false →
      HasPrefix path "/status/" = false →
      CreditCardService sortSlice g path = ⟨StatusNotFound, Payload.text "Not found"⟩) := by
  refine ⟨?_, ?_, ?_, ?_⟩
  · rintro id rfl
    have hp : HasPrefix ("/balance/" ++ id) "/balance/" = true :=
      (hasPrefix_iff _ _).mpr ⟨id, rfl⟩
    have hroute : CreditCardService sortSlice g ("/balance/" ++ id)
        = getBalance g ("/balance/" ++ id) := by
      simp only [CreditCardService, hp, if_true]
    refine ⟨hroute, TrimPrefix_append _ _, ?_, ?_⟩
    · intro hnone
      rw [hroute]
      simp only [getBalance, TrimPrefix_append, hnone, httpError]
    · intro card hsome
      rw [hroute]
      simp only [getBalance, TrimPrefix_append, hsome, jsonEncode]
  · rintro id rfl
    have hp : HasPrefix ("/transactions/" ++ id) "/transactions/" = true :=
      (hasPrefix_iff _ _).mpr ⟨id, rfl⟩
    have hb : HasPrefix ("/transactions/" ++ id) "/balance/" = false := by
      cases hb : HasPrefix ("/transactions/" ++ id) "/balance/" with
      | false => rfl
      | true => simp [balance_not_transactions _ hb] at hp
    have hroute : CreditCardService sortSlice g ("/transactions/" ++ id)
        = getRecentTransactions sortSlice g ("/transactions/" ++ id) := by
      simp [CreditCardService, hp, hb]
    refine ⟨hroute, TrimPrefix_append _ _, ?_⟩
    rw [hroute, getRecentTransactions_eq, TrimPrefix_append]
  · rintro id rfl
    have hp : HasPrefix ("/status/" ++ id) "/status/" = true :=
      (hasPrefix_iff _ _).mpr ⟨id, rfl⟩
    have hb : HasPrefix ("/status/" ++ id) "/balance/" = false := by
      cases hb : HasPrefix ("/status/" ++ id) "/balance/" with
      | false => rfl
      | true => simp [balance_not_status _ hb] at hp
    have ht : HasPrefix ("/status/" ++ id) "/transactions/" = false := by
      cases ht : HasPrefix ("/status/" ++ id) "/transactions/" with
      | false => rfl
      | true => simp [transactions_not_status _ ht] at hp
    have hroute : CreditCardService sortSlice g ("/status/" ++ id)
        = getAccountStatus g ("/status/" ++ id) := by
      simp [CreditCardService, hp, hb, ht]
    refine ⟨hroute, TrimPrefix_append _ _, ?_, ?_⟩
    · intro hnone
      rw [hroute]
      simp only [getAccountStatus, TrimPrefix_append, hnone, httpError]
    · intro card hsome
      rw [hroute]
      simp only [getAccountStatus, TrimPrefix_append, hsome, jsonEncode]
  · intro hb ht hs
    simp [CreditCardService, hb, ht, hs, httpError]

/-! ## Contents of the result -/

theorem sorted_split (p : Transaction → Bool) (s : List Transaction)
    (hs : s.Pairwise (fun a b => dateAfter b a = false))
    (hp : ∀ x ∈ s, ∀ y ∈ s, p x = true → p y = false → dateAfter x y = true) :
    s = s.filter p ++ s.filter (fun t => !p t) := by
  induction s with
  | nil => rfl
  | cons x xs ih =>
    rw [List.pairwise_cons] at hs
    have ihx := ih hs.2 (fun a ha b hb => hp a (List.mem_cons_of_mem _ ha) b
      (List.mem_cons_of_mem _ hb))
    cases hx : p x with
    | true =>
      simp only [List.filter_cons, hx, Bool.not_true, if_true, List.cons_append]
      simp only [Bool.false_eq_true, if_false]
      rw [← ihx]
    | false =>
      have hall : ∀ y ∈ xs, p y = false := by
        intro y hy
        cases hy2 : p y with
        | false => rfl
        | true =>
          have h1 := hp y (List.mem_cons_of_mem _ hy) x (List.mem_cons_self _ _) hy2 hx
          rw [hs.1 y hy] at h1
          exact absurd h1 (by simp)
      have hnil : xs.filter p = [] := by
        rw [List.filter_eq_nil_iff]
        intro y hy
        simp [hall y hy]
      have hself : xs.filter (fun t => !p t) = xs := by
        rw [List.filter_eq_self]
        intro y hy
        simp [hall y hy]
      simp [List.filter_cons, hx, hnil, hself]

theorem dateAfter_irrefl (a : Transaction) : dateAfter a a = false :=
  dateAfter_strictWeakOrder.irrefl a

theorem sorted_perm_append (s front back : List Transaction)
    (hs : s.Pairwise (fun a b => dateAfter b a = false))
    (hperm : s.Perm (front ++ back))
    (hlater : ∀ a ∈ front, ∀ b ∈ back, dateAfter a b = true) :
    ∃ sf sb, s = sf ++ sb ∧ sf.Perm front ∧ sb.Perm back ∧
      sb.Pairwise (fun a b => dateAfter b a = false) := by
  have hdisj : ∀ b ∈ back, b ∉ front := by
    intro b hb hbf
    have := hlater b hbf b hb
    rw [dateAfter_irrefl] at this
    exact absurd this (by simp)
  refine ⟨s.filter (fun t => decide (t ∈ front)),
    s.filter (fun t => !decide (t ∈ front)), ?_, ?_, ?_, ?_⟩
  · apply sorted_split (fun t => decide (t ∈ front)) s hs
    intro x hx y hy hpx hpy
    have hxf : x ∈ front := by simpa using hpx
    have hyf : y ∉ front := by simpa using hpy
    have hyb : y ∈ back := by
      rcases List.mem_append.mp (hperm.mem_iff.mp hy) with h | h
      · exact absurd h hyf
      · exact h
    exact hlater x hxf y hyb
  · refine (hperm.filter _).trans ?_
    rw [List.filter_append]
    have h1 : front.filter (fun t => decide (t ∈ front)) = front := by
      rw [List.filter_eq_self]
      intro a ha
      simpa using ha
    have h2 : back.filter (fun t => decide (t ∈ front)) = [] := by
      rw [List.filter_eq_nil_iff]
      intro b hb
      simpa using hdisj b hb
    rw [h1, h2, List.append_nil]
  · refine (hperm.filter _).trans ?_
    rw [List.filter_append]
    have h1 : front.filter (fun t => !decide (t ∈ front)) = [] := by
      rw [List.filter_eq_nil_iff]
      intro a ha
      simpa using ha
    have h2 : back.filter (fun t => !decide (t ∈ front)) = back := by
      rw [List.filter_eq_self]
      intro b hb
      simpa using hdisj b hb
    rw [h1, h2, List.nil_append]
  · exact hs.sublist (List.filter_sublist _)

/-- C15: for every identifier and transaction table, every transaction that
`getRecentTransactions` returns carries the requested `AccountNumber` and occurs
in the table, and none occurs in the result more often than in the table: the
result is a rearrangement of part of the matching transactions, and of all of
them when at most 10 match. -/
theorem getRecentTransactions_from_table (sortSlice : SortSlice)
    (hsort : SortSliceContract sortSlice) (g : Globals) (path id : String)
    (hid : TrimPrefix path "/transactions/" = id) :
    ∃ ts, getRecentTransactions sortSlice g path = ⟨StatusOK, Payload.transactions ts⟩ ∧
      (∀ t ∈ ts, t.AccountNumber = id ∧ t ∈ g.transactions) ∧
      (∀ t : Transaction, ts.count t ≤ g.transactions.count t) ∧
      List.Subperm ts (g.transactions.filter (fun t => decide (t.AccountNumber = id))) ∧
      ((g.transactions.filter (fun t => decide (t.AccountNumber = id))).length ≤ 10 →
        ts.Perm (g.transactions.filter (fun t => decide (t.AccountNumber = id)))) := by
  refine ⟨_, getRecentTransactions_eq sortSlice g path, ?_⟩
  rw [hid]
  have hperm := hsort.perm dateAfter
    (g.transactions.filter (fun t => decide (t.AccountNumber = id)))
  have hsub : List.Subperm
      ((sortSlice dateAfter (g.transactions.filter
        (fun t => decide (t.AccountNumber = id)))).take 10)
      (g.transactions.filter (fun t => decide (t.AccountNumber = id))) :=
    (List.take_sublist 10 _).subperm.trans hperm.subperm
  refine ⟨?_, ?_, hsub, ?_⟩
  · intro t ht
    have hmem := hsub.subset ht
    rw [List.mem_filter] at hmem
    exact ⟨by simpa using hmem.2, hmem.1⟩
  · intro t
    exact (hsub.count_le t).trans ((List.filter_sublist _).count_le t)
  · intro hle
    rw [List.take_of_length_le (by rw [hperm.length_eq]; exact hle)]
    exact hperm

theorem getRecentTransactions_from_table_witness :
    SortSliceContract insertionSort ∧
    TrimPrefix "/transactions/1111" "/transactions/" = "1111" ∧
    getRecentTransactions insertionSort sampleGlobals "/transactions/1111"
      = ⟨StatusOK, Payload.transactions
          [sampleTransaction "b" 3, sampleTransaction "e" 3, sampleTransaction "d" 2,
           sampleTransaction "a" 1, sampleTransaction "c" 1]⟩ ∧
    ∃ ts, getRecentTransactions insertionSort sampleGlobals "/transactions/1111"
        = ⟨StatusOK, Payload.transactions ts⟩ ∧
      (∀ t ∈ ts, t.AccountNumber = "1111" ∧ t ∈ sampleGlobals.transactions) ∧
      (∀ t : Transaction, ts.count t ≤ sampleGlobals.transactions.count t) ∧
      List.Subperm ts
        (sampleGlobals.transactions.filter (fun t => decide (t.AccountNumber = "1111"))) ∧
      ((sampleGlobals.transactions.filter
          (fun t => decide (t.AccountNumber = "1111"))).length ≤ 10 →
        ts.Perm (sampleGlobals.transactions.filter
          (fun t => decide (t.AccountNumber = "1111")))) :=
  ⟨insertionSort_contract, by decide, by decide,
    getRecentTransactions_from_table insertionSort insertionSort_contract sampleGlobals
      "/transactions/1111" "1111" (by decide)⟩

theorem keepsDays_fixedClock (lo hi : Nat) : KeepsDays fixedClock lo hi := by
  intro i j _ _ _ _ k k' hk
  simp only [fixedClock, Time.After, decide_eq_true_eq]
  omega

theorem keepsDays_tickingClock (lo hi : Nat) (h : hi ≤ 40) : KeepsDays tickingClock lo hi := by
  intro i j _ hi _ hj k k' hk
  simp only [tickingClock, Time.After, decide_eq_true_eq]
  omega

/-- C16: `getRecentTransactions` keeps the most recent transactions. The
matching transactions are the returned ones together with the omitted ones, and
no omitted transaction is dated after any returned one. With the table of
eleven that `TestMain` installs, on a clock that keeps days apart, the ten
transactions one to five days old are returned and the "Extra transaction",
six days old, is the one left out. -/
theorem getRecentTransactions_keeps_most_recent (sortSlice : SortSlice)
    (hsort : SortSliceContract sortSlice) (g : Globals) (path id : String)
    (hid : TrimPrefix path "/transactions/" = id) :
    (∃ ts omitted,
      getRecentTransactions sortSlice g path = ⟨StatusOK, Payload.transactions ts⟩ ∧
      (ts ++ omitted).Perm (g.transactions.filter (fun t => decide (t.AccountNumber = id))) ∧
      (∀ x ∈ ts, ∀ y ∈ omitted, y.Date.After x.Date = false) ∧
      (∀ y ∈ g.transactions, y.AccountNumber = id → y ∉ ts →
        ∀ x ∈ ts, y.Date.After x.Date = false)) ∧
    (∀ c : Clock, KeepsDays c 22 32 →
      ∃ ts, getRecentTransactions sortSlice (testGlobals c) "/transactions/1111"
          = ⟨StatusOK, Payload.transactions ts⟩ ∧
        ts.Perm ((testTransactions c).take 10) ∧
        mkTransaction c 32 "11" "1111" (-100.00) 6 "Extra transaction" ∉ ts) := by
  constructor
  · refine ⟨_, (sortSlice dateAfter (g.transactions.filter
      (fun t => decide (t.AccountNumber = id)))).drop 10,
      getRecentTransactions_eq sortSlice g path, ?_⟩
    rw [hid, List.take_append_drop]
    have hperm := hsort.perm dateAfter
      (g.transactions.filter (fun t => decide (t.AccountNumber = id)))
    have hsorted := hsort.sorted dateAfter dateAfter_strictWeakOrder
      (g.transactions.filter (fun t => decide (t.AccountNumber = id)))
    rw [← List.take_append_drop 10 (sortSlice dateAfter (g.transactions.filter
      (fun t => decide (t.AccountNumber = id)))), List.pairwise_append] at hsorted
    refine ⟨hperm, fun x hx y hy => hsorted.2.2 x hx y hy, ?_⟩
    intro y hy hacct hnot x hx
    have hyS : y ∈ sortSlice dateAfter (g.transactions.filter
        (fun t => decide (t.AccountNumber = id))) :=
      hperm.mem_iff.mpr (List.mem_filter.mpr ⟨hy, by simpa using hacct⟩)
    rw [← List.take_append_drop 10 (sortSlice dateAfter (g.transactions.filter
      (fun t => decide (t.AccountNumber = id)))), List.mem_append] at hyS
    rcases hyS with h | h
    · exact absurd h hnot
    · exact hsorted.2.2 x hx y h
  · intro c hclock
    have htrim : TrimPrefix "/transactions/1111" "/transactions/" = "1111" := by decide
    refine ⟨_, getRecentTransactions_eq sortSlice (testGlobals c) _, ?_⟩
    rw [htrim]
    simp only [testGlobals, testTransactions_all_1111]
    have hsplit : testTransactions c = (testTransactions c).take 10
        ++ [mkTransaction c 32 "11" "1111" (-100.00) 6 "Extra transaction"] := rfl
    have hlater : ∀ a ∈ (testTransactions c).take 10,
        ∀ b ∈ [mkTransaction c 32 "11" "1111" (-100.00) 6 "Extra transaction"],
          dateAfter a b = true := by
      intro a ha b hb
      have hfront : (testTransactions c).take 10 = [
          mkTransaction c 22 "1" "1111" (-150.75) 1 "Hotel - Paris",
          mkTransaction c 23 "2" "1111" (-89.50) 1 "Restaurant - Paris",
          mkTransaction c 24 "3" "1111" (-200.00) 2 "Train Ticket - London to Paris",
          mkTransaction c 25 "4" "1111" (-75.25) 2 "Taxi - London",
          mkTransaction c 26 "5" "1111" (-1500.00) 3 "Flight - New York to London",
          mkTransaction c 27 "6" "1111" (-120.30) 3 "Duty Free Shop - JFK Airport",
          mkTransaction c 28 "7" "1111" (-45.00) 4 "Taxi - New York",
          mkTransaction c 29 "8" "1111" (-85.75) 4 "Restaurant - New York",
          mkTransaction c 30 "9" "1111" (-250.00) 5 "Hotel - New York",
          mkTransaction c 31 "10" "1111" (-60.25) 5 "Souvenir Shop - Times Square"] := rfl
      rw [hfront] at ha
      simp only [List.mem_cons, List.mem_singleton, List.not_mem_nil, or_false] at ha hb
      subst hb
      rcases ha with rfl | rfl | rfl | rfl | rfl | rfl | rfl | rfl | rfl | rfl <;>
        exact hclock _ _ (by omega) (by omega) (by omega) (by omega) _ _ (by omega)
    have hperm := hsort.perm dateAfter (testTransactions c)
    have hsorted := hsort.sorted dateAfter dateAfter_strictWeakOrder (testTransactions c)
    obtain ⟨sf, sb, hs, hsf, hsb, -⟩ := sorted_perm_append _ _ _ hsorted
      (hsplit ▸ hperm) hlater
    have hlen : sf.length = 10 := by rw [hsf.length_eq]; rfl
    rw [hs, List.take_left' hlen]
    refine ⟨hsf, ?_⟩
    intro hmem
    have hin := hsf.mem_iff.mp hmem
    have := hlater _ hin _ (List.mem_singleton_self _)
    rw [dateAfter_irrefl] at this
    exact absurd this (by simp)

theorem getRecentTransactions_keeps_most_recent_witness :
    SortSliceContract insertionSort ∧
    TrimPrefix "/transactions/1111" "/transactions/" = "1111" ∧
    KeepsDays tickingClock 22 32 ∧
    getRecentTransactions insertionSort (testGlobals tickingClock) "/transactions/1111"
      = ⟨StatusOK, Payload.transactions [
          mkTransaction tickingClock 23 "2" "1111" (-89.50) 1 "Restaurant - Paris",
          mkTransaction tickingClock 22 "1" "1111" (-150.75) 1 "Hotel - Paris",
          mkTransaction tickingClock 25 "4" "1111" (-75.25) 2 "Taxi - London",
          mkTransaction tickingClock 24 "3" "1111" (-200.00) 2 "Train Ticket - London to Paris",
          mkTransaction tickingClock 27 "6" "1111" (-120.30) 3 "Duty Free Shop - JFK Airport",
          mkTransaction tickingClock 26 "5" "1111" (-1500.00) 3 "Flight - New York to London",
          mkTransaction tickingClock 29 "8" "1111" (-85.75) 4 "Restaurant - New York",
          mkTransaction tickingClock 28 "7" "1111" (-45.00) 4 "Taxi - New York",
          mkTransaction tickingClock 31 "10" "1111" (-60.25) 5 "Souvenir Shop - Times Square",
          mkTransaction tickingClock 30 "9" "1111" (-250.00) 5 "Hotel - New York"]⟩ ∧
    ((∃ ts omitted,
      getRecentTransactions insertionSort (testGlobals tickingClock) "/transactions/1111"
        = ⟨StatusOK, Payload.transactions ts⟩ ∧
      (ts ++ omitted).Perm ((testGlobals tickingClock).transactions.filter
        (fun t => decide (t.AccountNumber = "1111"))) ∧
      (∀ x ∈ ts, ∀ y ∈ omitted, y.Date.After x.Date = false) ∧
      (∀ y ∈ (testGlobals tickingClock).transactions, y.AccountNumber = "1111" → y ∉ ts →
        ∀ x ∈ ts, y.Date.After x.Date = false)) ∧
    (∃ ts, getRecentTransactions insertionSort (testGlobals tickingClock) "/transactions/1111"
        = ⟨StatusOK, Payload.transactions ts⟩ ∧
      ts.Perm ((testTransactions tickingClock).take 10) ∧
      mkTransaction tickingClock 32 "11" "1111" (-100.00) 6 "Extra transaction" ∉ ts)) :=
  ⟨insertionSort_contract, by decide, keepsDays_tickingClock 22 32 (by decide), by rfl,
    (getRecentTransactions_keeps_most_recent insertionSort insertionSort_contract
      (testGlobals tickingClock) "/transactions/1111" "1111" (by decide)).1,
    (getRecentTransactions_keeps_most_recent insertionSort insertionSort_contract
      (testGlobals tickingClock) "/transactions/1111" "1111" (by decide)).2 tickingClock
      (keepsDays_tickingClock 22 32 (by decide))⟩

/-! ## The scenario of account 1111 -/

/-- C12: in the fixed dataset account "1111" has exactly ten transactions, two
for each of the day offsets 1 to 5. On a clock that keeps days apart,
`getRecentTransactions` returns all ten, most recent first: the two one day old
("Hotel - Paris" and "Restaurant - Paris") come first, then the two of two days
ago, and so on down to the two of five days ago. -/
theorem account_1111_history (sortSlice : SortSlice) (hsort : SortSliceContract sortSlice)
    (c : Clock) (hclock : KeepsDays c 10 19) :
    (transactions c).filter (fun t => decide (t.AccountNumber = "1111")) = [
      mkTransaction c 10 "5" "1111" (-150.75) 1 "Hotel - Paris",
      mkTransaction c 11 "6" "1111" (-89.50) 1 "Restaurant - Paris",
      mkTransaction c 12 "7" "1111" (-200.00) 2 "Train Ticket - London to Paris",
      mkTransaction c 13 "8" "1111" (-75.25) 2 "Taxi - London",
      mkTransaction c 14 "9" "1111" (-1500.00) 3 "Flight - New York to London",
      mkTransaction c 15 "10" "1111" (-120.30) 3 "Duty Free Shop - JFK Airport",
      mkTransaction c 16 "11" "1111" (-45.00) 4 "Taxi - New York",
      mkTransaction c 17 "12" "1111" (-85.75) 4 "Restaurant - New York",
      mkTransaction c 18 "13" "1111" (-250.00) 5 "Hotel - New York",
      mkTransaction c 19 "14" "1111" (-60.25) 5 "Souvenir Shop - Times Square"] ∧
    (transactions c).countP (fun t => decide (t.AccountNumber = "1111")) = 10 ∧
    ∃ ts, getRecentTransactions sortSlice (initial c) "/transactions/1111"
        = ⟨StatusOK, Payload.transactions ts⟩ ∧
      ts.length = 10 ∧
      ts.Pairwise (fun a b => b.Date.After a.Date = false) ∧
      ∃ d₁ d₂ d₃ d₄ d₅, ts = d₁ ++ (d₂ ++ (d₃ ++ (d₄ ++ d₅))) ∧
        d₁.Perm [mkTransaction c 10 "5" "1111" (-150.75) 1 "Hotel - Paris",
                 mkTransaction c 11 "6" "1111" (-89.50) 1 "Restaurant - Paris"] ∧
        d₂.Perm [mkTransaction c 12 "7" "1111" (-200.00) 2 "Train Ticket - London to Paris",
                 mkTransaction c 13 "8" "1111" (-75.25) 2 "Taxi - London"] ∧
        d₃.Perm [mkTransaction c 14 "9" "1111" (-1500.00) 3 "Flight - New York to London",
                 mkTransaction c 15 "10" "1111" (-120.30) 3 "Duty Free Shop - JFK Airport"] ∧
        d₄.Perm [mkTransaction c 16 "11" "1111" (-45.00) 4 "Taxi - New York",
                 mkTransaction c 17 "12" "1111" (-85.75) 4 "Restaurant - New York"] ∧
        d₅.Perm [mkTransaction c 18 "13" "1111" (-250.00) 5 "Hotel - New York",
                 mkTransaction c 19 "14" "1111" (-60.25) 5 "Souvenir Shop - Times Square"] ∧
        (∀ a ∈ d₁, ∀ b ∈ d₂, a.Date.After b.Date = true) ∧
        (∀ a ∈ d₂, ∀ b ∈ d₃, a.Date.After b.Date = true) ∧
        (∀ a ∈ d₃, ∀ b ∈ d₄, a.Date.After b.Date = true) ∧
        (∀ a ∈ d₄, ∀ b ∈ d₅, a.Date.After b.Date = true) := by
  have hfilter : (transactions c).filter (fun t => decide (t.AccountNumber = "1111")) = [
      mkTransaction c 10 "5" "1111" (-150.75) 1 "Hotel - Paris",
      mkTransaction c 11 "6" "1111" (-89.50) 1 "Restaurant - Paris",
      mkTransaction c 12 "7" "1111" (-200.00) 2 "Train Ticket - London to Paris",
      mkTransaction c 13 "8" "1111" (-75.25) 2 "Taxi - London",
      mkTransaction c 14 "9" "1111" (-1500.00) 3 "Flight - New York to London",
      mkTransaction c 15 "10" "1111" (-120.30) 3 "Duty Free Shop - JFK Airport",
      mkTransaction c 16 "11" "1111" (-45.00) 4 "Taxi - New York",
      mkTransaction c 17 "12" "1111" (-85.75) 4 "Restaurant - New York",
      mkTransaction c 18 "13" "1111" (-250.00) 5 "Hotel - New York",
      mkTransaction c 19 "14" "1111" (-60.25) 5 "Souvenir Shop - Times Square"] := rfl
  have htrim : TrimPrefix "/transactions/1111" "/transactions/" = "1111" := by decide
  refine ⟨hfilter, by rw [List.countP_eq_length_filter, hfilter]; rfl, _,
    getRecentTransactions_eq sortSlice (initial c) _, ?_⟩
  rw [htrim]
  simp only [initial]
  have hperm := hsort.perm dateAfter
    ((transactions c).filter (fun t => decide (t.AccountNumber = "1111")))
  have hsorted := hsort.sorted dateAfter dateAfter_strictWeakOrder
    ((transactions c).filter (fun t => decide (t.AccountNumber = "1111")))
  have hlen : (sortSlice dateAfter
      ((transactions c).filter (fun t => decide (t.AccountNumber = "1111")))).length = 10 := by
    rw [hperm.length_eq, hfilter]; rfl
  rw [List.take_of_length_le (by omega)]
  refine ⟨hlen, hsorted, ?_⟩
  rw [hfilter] at hperm
  obtain ⟨d₁, r₁, h₁, hd₁, hr₁, hs₁⟩ := sorted_perm_append _
    [mkTransaction c 10 "5" "1111" (-150.75) 1 "Hotel - Paris",
     mkTransaction c 11 "6" "1111" (-89.50) 1 "Restaurant - Paris"] _ hsorted hperm (by
      intro a ha b hb
      simp only [List.mem_cons, List.mem_singleton, List.not_mem_nil, or_false] at ha hb
      rcases ha with rfl | rfl <;>
        rcases hb with rfl | rfl | rfl | rfl | rfl | rfl | rfl | rfl <;>
        exact hclock _ _ (by omega) (by omega) (by omega) (by omega) _ _ (by omega))
  obtain ⟨d₂, r₂, h₂, hd₂, hr₂, hs₂⟩ := sorted_perm_append _
    [mkTransaction c 12 "7" "1111" (-200.00) 2 "Train Ticket - London to Paris",
     mkTransaction c 13 "8" "1111" (-75.25) 2 "Taxi - London"] _ hs₁ hr₁ (by
      intro a ha b hb
      simp only [List.mem_cons, List.mem_singleton, List.not_mem_nil, or_false] at ha hb
      rcases ha with rfl | rfl <;>
        rcases hb with rfl | rfl | rfl | rfl | rfl | rfl <;>
        exact hclock _ _ (by omega) (by omega) (by omega) (by omega) _ _ (by omega))
  obtain ⟨d₃, r₃, h₃, hd₃, hr₃, hs₃⟩ := sorted_perm_append _
    [mkTransaction c 14 "9" "1111" (-1500.00) 3 "Flight - New York to London",
     mkTransaction c 15 "10" "1111" (-120.30) 3 "Duty Free Shop - JFK Airport"] _ hs₂ hr₂ (by
      intro a ha b hb
      simp only [List.mem_cons, List.mem_singleton, List.not_mem_nil, or_false] at ha hb
      rcases ha with rfl | rfl <;>
        rcases hb with rfl | rfl | rfl | rfl <;>
        exact hclock _ _ (by omega) (by omega) (by omega) (by omega) _ _ (by omega))
  obtain ⟨d₄, d₅, h₄, hd₄, hd₅, -⟩ := sorted_perm_append _
    [mkTransaction c 16 "11" "1111" (-45.00) 4 "Taxi - New York",
     mkTransaction c 17 "12" "1111" (-85.75) 4 "Restaurant - New York"] _ hs₃ hr₃ (by
      intro a ha b hb
      simp only [List.mem_cons, List.mem_singleton, List.not_mem_nil, or_false] at ha hb
      rcases ha with rfl | rfl <;>
        rcases hb with rfl | rfl <;>
        exact hclock _ _ (by omega) (by omega) (by omega) (by omega) _ _ (by omega))
  have hsep : ∀ x y gx gy : List Transaction, x.Perm gx → y.Perm gy →
      (∀ a ∈ gx, ∀ b ∈ gy, dateAfter a b = true) →
      ∀ a ∈ x, ∀ b ∈ y, a.Date.After b.Date = true :=
    fun x y gx gy hx hy h a ha b hb => h a (hx.mem_iff.mp ha) b (hy.mem_iff.mp hb)
  refine ⟨d₁, d₂, d₃, d₄, d₅, by rw [h₁, h₂, h₃, h₄], hd₁, hd₂, hd₃, hd₄, hd₅,
    hsep _ _ _ _ hd₁ hd₂ ?_, hsep _ _ _ _ hd₂ hd₃ ?_, hsep _ _ _ _ hd₃ hd₄ ?_,
    hsep _ _ _ _ hd₄ hd₅ ?_⟩ <;>
  · intro a ha b hb
    simp only [List.mem_cons, List.mem_singleton, List.not_mem_nil, or_false] at ha hb
    rcases ha with rfl | rfl <;> rcases hb with rfl | rfl <;>
      exact hclock _ _ (by omega) (by omega) (by omega) (by omega) _ _ (by omega)

theorem account_1111_history_witness :
    SortSliceContract insertionSort ∧ KeepsDays fixedClock 10 19 ∧
    getRecentTransactions insertionSort (initial fixedClock) "/transactions/1111"
      = ⟨StatusOK, Payload.transactions [
          mkTransaction fixedClock 10 "5" "1111" (-150.75) 1 "Hotel - Paris",
          mkTransaction fixedClock 11 "6" "1111" (-89.50) 1 "Restaurant - Paris",
          mkTransaction fixedClock 12 "7" "1111" (-200.00) 2 "Train Ticket - London to Paris",
          mkTransaction fixedClock 13 "8" "1111" (-75.25) 2 "Taxi - London",
          mkTransaction fixedClock 14 "9" "1111" (-1500.00) 3 "Flight - New York to London",
          mkTransaction fixedClock 15 "10" "1111" (-120.30) 3 "Duty Free Shop - JFK Airport",
          mkTransaction fixedClock 16 "11" "1111" (-45.00) 4 "Taxi - New York",
          mkTransaction fixedClock 17 "12" "1111" (-85.75) 4 "Restaurant - New York",
          mkTransaction fixedClock 18 "13" "1111" (-250.00) 5 "Hotel - New York",
          mkTransaction fixedClock 19 "14" "1111" (-60.25) 5 "Souvenir Shop - Times Square"]⟩ ∧
    getRecentTransactions insertionSort (initial tickingClock) "/transactions/1111"
      = ⟨StatusOK, Payload.transactions [
          mkTransaction tickingClock 11 "6" "1111" (-89.50) 1 "Restaurant - Paris",
          mkTransaction tickingClock 10 "5" "1111" (-150.75) 1 "Hotel - Paris",
          mkTransaction tickingClock 13 "8" "1111" (-75.25) 2 "Taxi - London",
          mkTransaction tickingClock 12 "7" "1111" (-200.00) 2 "Train Ticket - London to Paris",
          mkTransaction tickingClock 15 "10" "1111" (-120.30) 3 "Duty Free Shop - JFK Airport",
          mkTransaction tickingClock 14 "9" "1111" (-1500.00) 3 "Flight - New York to London",
          mkTransaction tickingClock 17 "12" "1111" (-85.75) 4 "Restaurant - New York",
          mkTransaction tickingClock 16 "11" "1111" (-45.00) 4 "Taxi - New York",
          mkTransaction tickingClock 19 "14" "1111" (-60.25) 5 "Souvenir Shop - Times Square",
          mkTransaction tickingClock 18 "13" "1111" (-250.00) 5 "Hotel - New York"]⟩ ∧
    (transactions fixedClock).countP (fun t => decide (t.AccountNumber = "1111")) = 10 ∧
    ∃ ts, getRecentTransactions insertionSort (initial fixedClock) "/transactions/1111"
        = ⟨StatusOK, Payload.transactions ts⟩ ∧
      ts.length = 10 ∧
      ts.Pairwise (fun a b => b.Date.After a.Date = false) :=
  ⟨insertionSort_contract, keepsDays_fixedClock 10 19, by rfl, by rfl,
    (account_1111_history insertionSort insertionSort_contract fixedClock
      (keepsDays_fixedClock 10 19)).2.1,
    (account_1111_history insertionSort insertionSort_contract fixedClock
      (keepsDays_fixedClock 10 19)).2.2.imp (fun _ h => ⟨h.1, h.2.1, h.2.2.1⟩)⟩

/-! ## Stability of the order, with the library's sort routine -/

theorem sort_Slice_short (less : Transaction → Transaction → Bool) (l : List Transaction)
    (h : l.length ≤ 12) : sort.Slice less l = insertionSort less l := by
  unfold sort.Slice pdqsort_func
  simp only [Nat.sub_zero, h, if_true, insertionSort_func, List.take_zero, List.drop_zero,
    List.nil_append, List.take_length, List.drop_length, List.append_nil]

/-- C3, as the code has it: the ordering used by `getRecentTransactions` is
stable whenever at most 12 transactions match the identifier, the length up to
which `sort.Slice` sorts by insertion. For every date, the returned transactions
of that date are then, in order, the first ones among the matching transactions
of that date in the table (the cut to 10 is taken from the stably sorted
sequence), so two returned transactions of equal `Date` stand in the order they
have in the table. -/
theorem getRecentTransactions_stable_upto_twelve (g : Globals) (path id : String)
    (hid : TrimPrefix path "/transactions/" = id)
    (hcount : g.transactions.countP (fun t => decide (t.AccountNumber = id)) ≤ 12) :
    ∃ ts, getRecentTransactions sort.Slice g path = ⟨StatusOK, Payload.transactions ts⟩ ∧
      (∀ d : Time, List.IsPrefix (ts.filter (fun t => decide (t.Date = d)))
        ((g.transactions.filter (fun t => decide (t.AccountNumber = id))).filter
          (fun t => decide (t.Date = d)))) ∧
      KeepsTableOrder g.transactions ts := by
  have hsame : getRecentTransactions sort.Slice g path
      = getRecentTransactions insertionSort g path := by
    rw [getRecentTransactions_eq, getRecentTransactions_eq, hid,
      sort_Slice_short dateAfter _ (by rw [← List.countP_eq_length_filter]; exact hcount)]
  rw [hsame]
  exact stable_of_stableByDate insertionSort insertionSort_stableByDate g path id hid

theorem getRecentTransactions_stable_upto_twelve_witness :
    TrimPrefix "/transactions/1111" "/transactions/" = "1111" ∧
    sampleGlobals.transactions.countP (fun t => decide (t.AccountNumber = "1111")) ≤ 12 ∧
    getRecentTransactions sort.Slice sampleGlobals "/transactions/1111"
      = ⟨StatusOK, Payload.transactions
          [sampleTransaction "b" 3, sampleTransaction "e" 3, sampleTransaction "d" 2,
           sampleTransaction "a" 1, sampleTransaction "c" 1]⟩ ∧
    ∃ ts, getRecentTransactions sort.Slice sampleGlobals "/transactions/1111"
        = ⟨StatusOK, Payload.transactions ts⟩ ∧
      (∀ d : Time, List.IsPrefix (ts.filter (fun t => decide (t.Date = d)))
        ((sampleGlobals.transactions.filter (fun t => decide (t.AccountNumber = "1111"))).filter
          (fun t => decide (t.Date = d)))) ∧
      KeepsTableOrder sampleGlobals.transactions ts :=
  ⟨by decide, by decide, by decide,
    getRecentTransactions_stable_upto_twelve sampleGlobals "/transactions/1111" "1111"
      (by decide) (by decide)⟩

/-- C3, as stated, fails once more than 12 transactions match. The table holds
"r00" to "r11", all of one date, then "r12", one day later. `sort.Slice` picks
the cell of "r06" as pivot and its partition step moves "r06" ahead of the rows
before it, so the result lists "r06" before "r02", two transactions of equal
`Date` that stand the other way round in the table. -/
theorem stable_order_counterexample :
    thirteenGlobals.transactions.countP (fun t => decide (t.AccountNumber = "1111")) = 13 ∧
    sort.Slice dateAfter thirteenGlobals.transactions
      = [sampleTransaction "r12" 2, sampleTransaction "r06" 1, sampleTransaction "r02" 1,
         sampleTransaction "r03" 1, sampleTransaction "r04" 1, sampleTransaction "r05" 1,
         sampleTransaction "r00" 1, sampleTransaction "r07" 1, sampleTransaction "r08" 1,
         sampleTransaction "r09" 1, sampleTransaction "r10" 1, sampleTransaction "r11" 1,
         sampleTransaction "r01" 1] ∧
    getRecentTransactions sort.Slice thirteenGlobals "/transactions/1111"
      = ⟨StatusOK, Payload.transactions
          [sampleTransaction "r12" 2, sampleTransaction "r06" 1, sampleTransaction "r02" 1,
           sampleTransaction "r03" 1, sampleTransaction "r04" 1, sampleTransaction "r05" 1,
           sampleTransaction "r00" 1, sampleTransaction "r07" 1, sampleTransaction "r08" 1,
           sampleTransaction "r09" 1]⟩ ∧
    (sampleTransaction "r06" 1).Date = (sampleTransaction "r02" 1).Date ∧
    List.Sublist [sampleTransaction "r02" 1, sampleTransaction "r06" 1]
      thirteenGlobals.transactions ∧
    ¬ List.Sublist [sampleTransaction "r06" 1, sampleTransaction "r02" 1]
      thirteenGlobals.transactions ∧
    ¬ KeepsTableOrder thirteenGlobals.transactions
        [sampleTransaction "r12" 2, sampleTransaction "r06" 1, sampleTransaction "r02" 1,
         sampleTransaction "r03" 1, sampleTransaction "r04" 1, sampleTransaction "r05" 1,
         sampleTransaction "r00" 1, sampleTransaction "r07" 1, sampleTransaction "r08" 1,
         sampleTransaction "r09" 1] ∧
    ¬ (∀ (g : Globals) (path : String),
        ∃ ts, getRecentTransactions sort.Slice g path = ⟨StatusOK, Payload.transactions ts⟩ ∧
          KeepsTableOrder g.transactions ts) := by
  have hres : getRecentTransactions sort.Slice thirteenGlobals "/transactions/1111"
      = ⟨StatusOK, Payload.transactions
          [sampleTransaction "r12" 2, sampleTransaction "r06" 1, sampleTransaction "r02" 1,
           sampleTransaction "r03" 1, sampleTransaction "r04" 1, sampleTransaction "r05" 1,
           sampleTransaction "r00" 1, sampleTransaction "r07" 1, sampleTransaction "r08" 1,
           sampleTransaction "r09" 1]⟩ := by decide
  have hno : ¬ List.Sublist [sampleTransaction "r06" 1, sampleTransaction "r02" 1]
      thirteenGlobals.transactions := by decide
  have hnot : ¬ KeepsTableOrder thirteenGlobals.transactions
      [sampleTransaction "r12" 2, sampleTransaction "r06" 1, sampleTransaction "r02" 1,
       sampleTransaction "r03" 1, sampleTransaction "r04" 1, sampleTransaction "r05" 1,
       sampleTransaction "r00" 1, sampleTransaction "r07" 1, sampleTransaction "r08" 1,
       sampleTransaction "r09" 1] := by
    intro h
    exact hno (h (sampleTransaction "r06" 1) (sampleTransaction "r02" 1) rfl (by decide))
  refine ⟨by decide, by decide, hres, rfl, by decide, hno, hnot, ?_⟩
  intro hall
  obtain ⟨ts, hts, hkeep⟩ := hall thirteenGlobals "/transactions/1111"
  rw [hres] at hts
  simp only [Response.mk.injEq, Payload.transactions.injEq, true_and] at hts
  rw [← hts] at hkeep
  exact hnot hkeep

end CreditCardService
